import Mathlib

/-!
# Card game round engine (`pholosopher.c`): shallow embedding and checked properties

The C program keeps its whole state in globals (`deck`, `players`, `pot`,
`current_bet`, `seed`).  Here that state is the record `Game`, and every C
function becomes a function from `Game` to `Game` (plus its return value).

Conventions of the embedding:

* a C array is a function from its index (`Nat`) to its element; only the
  indices below the declared size are meaningful (`deck` 52, `players` 4,
  `hand` 5, `played` 4);
* `int` is `Int`, computed exactly; a loop bound of type `int` gives `toNat`
  many passes, none when it is negative.  The chip arithmetic of the betting
  pass and of the payout is given a second time on 32 bits (`bet_turn_int`,
  `resolve_int`, with the two's-complement wrap `int_wrap`); the two agree
  wherever pot and chips stay inside the range of `int`, as they do in every
  state of a tournament;
* `unsigned int` is a `Nat` below `2^32`, with the wrap written out where the
  source multiplies and adds (`simple_rand`);
* a `for` loop with counter `0 .. n-1` is `forLoop body n`;
* the uninitialised local array `played` of `play_round` is an explicit
  argument `played0` (its unknown initial content), and `sys_philosopher`
  takes the content found in each round as its argument `stack`;
* `printf`, `initlock`, `acquire` and `release` have no effect on the state and
  are left out.
-/

namespace CardGame

/-! ## Data model -/

/-- The C `struct Card`: three `int` fields. -/
structure Card where
  suit : Int
  rank : Int
  special : Int
  deriving DecidableEq, Repr, Inhabited

/-- The C `struct Player`. -/
structure Player where
  hand : Nat → Card
  hand_size : Int
  chips : Int
  folded : Int

/-- The global variables of the program. -/
structure Game where
  deck : Nat → Card
  players : Nat → Player
  pot : Int
  current_bet : Int
  seed : Nat

/-- Array store `a[i] = v`. -/
def upd {α : Type} (a : Nat → α) (i : Nat) (v : α) : Nat → α :=
  fun k => if k = i then v else a k

/-- The loop `for (i = 0; i < n; i++) body(i)` as a state transformer. -/
def forLoop {σ : Type} (body : Nat → σ → σ) : Nat → σ → σ
  | 0, s => s
  | n + 1, s => body n (forLoop body n s)

/-! ## Random numbers -/

/-- The right-hand side of `seed = (1103515245 * seed + 12345) % (1 << 31)` in
32-bit unsigned arithmetic: product and sum wrap modulo `2^32`, and `1 << 31`
is `2^31`. -/
@[irreducible] def lcg (seed : Nat) : Nat :=
  (((1103515245 * seed) % 2 ^ 32 + 12345) % 2 ^ 32) % 2 ^ 31

/-- Function `simple_rand`: stores the new seed and returns it. -/
def simple_rand (g : Game) : Nat × Game :=
  (lcg g.seed, { g with seed := lcg g.seed })

/-- Function `get_trump_suit`: `simple_rand() % 4`. -/
def get_trump_suit (g : Game) : Int × Game :=
  (((simple_rand g).1 % 4 : Nat), (simple_rand g).2)

/-! ## Deck construction, shuffle, deal -/

/-- The `special` expression of `init_game` for deck index `i`. -/
def special_of (i : Nat) : Int :=
  if i % 13 = 0 then 1 else if i % 13 = 12 then 2 else if i % 13 = 11 then 3 else 0

/-- The card that the first loop of `init_game` stores in `deck[i]`. -/
def built_card (i : Nat) : Card :=
  { suit := ((i / 13 : Nat) : Int), rank := ((i % 13 : Nat) : Int), special := special_of i }

/-- Body of the first loop of `init_game`. -/
def init_card (i : Nat) (deck : Nat → Card) : Nat → Card :=
  upd deck i (built_card i)

/-- Body of the second loop of `init_game`. -/
def init_player (i : Nat) (ps : Nat → Player) : Nat → Player :=
  upd ps i { ps i with hand_size := 0, chips := 100, folded := 0 }

/-- Function `init_game`. -/
def init_game (g : Game) : Game :=
  { g with deck := forLoop init_card 52 g.deck,
           players := forLoop init_player 4 g.players,
           pot := 0,
           current_bet := 0 }

/-- The swap index `j = simple_rand() % (i+1)` drawn at step `i` of the shuffle
from the seed `seed`. -/
def swap_index (seed i : Nat) : Nat :=
  lcg seed % (i + 1)

/-- The three assignments `temp = deck[i]; deck[i] = deck[j]; deck[j] = temp`. -/
def swap_cards (deck : Nat → Card) (i j : Nat) : Nat → Card :=
  upd (upd deck i (deck j)) j (deck i)

/-- Body of the loop of `shuffle_deck`; the `k`-th pass has `i = 51 - k`. -/
def shuffle_step (k : Nat) (g : Game) : Game :=
  { (simple_rand g).2 with
      deck := swap_cards g.deck (51 - k) (swap_index g.seed (51 - k)) }

/-- Function `shuffle_deck`: `for (i = 51; i > 0; i--)`, 51 passes. -/
def shuffle_deck (g : Game) : Game :=
  forLoop shuffle_step 51 g

/-- State of the loops of `deal_cards`: the players and `card_index`. -/
structure DealState where
  players : Nat → Player
  card_index : Nat

/-- Body of the inner loop of `deal_cards`.  The hand index `hand_size` is
read as a natural number (the source indexes the array with it, so it is
meaningful for `0 <= hand_size < 5`). -/
def deal_one (deck : Nat → Card) (player : Nat) (s : DealState) : DealState :=
  if s.card_index < 52 then
    { players := upd s.players player
        { s.players player with
            hand := upd (s.players player).hand (s.players player).hand_size.toNat
                      (deck s.card_index),
            hand_size := (s.players player).hand_size + 1 },
      card_index := s.card_index + 1 }
  else s

/-- Body of the outer loop of `deal_cards`: one card to each of the 4 seats. -/
def deal_pass (deck : Nat → Card) (_round : Nat) (s : DealState) : DealState :=
  forLoop (deal_one deck) 4 s

/-- Function `deal_cards`. -/
def deal_cards (g : Game) : Game :=
  { g with players := (forLoop (deal_pass g.deck) 5 ⟨g.players, 0⟩).players }

/-! ## Special abilities -/

/-- The store `players[p].hand[i] = c`. -/
def set_hand_slot (ps : Nat → Player) (p i : Nat) (c : Card) : Nat → Player :=
  upd ps p { ps p with hand := upd (ps p).hand i c }

/-- The store `players[p].hand_size = n`. -/
def set_hand_size (ps : Nat → Player) (p : Nat) (n : Int) : Nat → Player :=
  upd ps p { ps p with hand_size := n }

/-- The `case 2` block of `activate_special` for `player < NUM_PLAYERS-1`;
`temp0` is the initial content of the local array `temp`. -/
def swap_hands (ps : Nat → Player) (player : Nat) (temp0 : Nat → Card) : Nat → Player :=
  let temp_size := (ps player).hand_size
  let temp := forLoop (fun i t => upd t i ((ps player).hand i)) (ps player).hand_size.toNat temp0
  let ps1 := set_hand_size ps player (ps (player + 1)).hand_size
  let ps2 := forLoop (fun i q => set_hand_slot q player i ((q (player + 1)).hand i))
    (ps1 (player + 1)).hand_size.toNat ps1
  let ps3 := set_hand_size ps2 (player + 1) temp_size
  forLoop (fun i q => set_hand_slot q (player + 1) i (temp i)) temp_size.toNat ps3

/-- Function `activate_special`.  The local `temp` starts with an arbitrary
content; every entry read from it has been written before. -/
def activate_special (g : Game) (player : Nat) (card : Card) : Game :=
  if card.special = 1 then g
  else if card.special = 2 then
    if player < 3 then { g with players := swap_hands g.players player (fun _ => default) }
    else g
  else if card.special = 3 then (get_trump_suit g).2
  else g

/-! ## Betting -/

/-- Body of the loop of `betting_round` for loop counter `i`. -/
def bet_turn (dealer : Nat) (i : Nat) (g : Game) : Game :=
  let player := (dealer + i) % 4
  if (g.players player).folded ≠ 0 then g
  else
    let r := (simple_rand g).1
    let g1 := (simple_rand g).2
    let decision : Int :=
      if (g1.players player).chips ≤ g1.current_bet then 0 else ((r % 3 : Nat) : Int)
    if decision = 0 then
      { g1 with players := upd g1.players player { g1.players player with folded := 1 } }
    else if decision = 1 then
      { g1 with
          players := upd g1.players player
            { g1.players player with chips := (g1.players player).chips - g1.current_bet },
          pot := g1.pot + g1.current_bet }
    else if decision = 2 then
      { g1 with
          current_bet := g1.current_bet + 10,
          players := upd g1.players player
            { g1.players player with
                chips := (g1.players player).chips - (g1.current_bet + 10) },
          pot := g1.pot + (g1.current_bet + 10) }
    else g1

/-- Function `betting_round`. -/
def betting_round (g : Game) (dealer : Nat) : Game :=
  forLoop (bet_turn dealer) 4 { g with current_bet := 10 }

/-! ## One round -/

/-- The globals together with the locals of `play_round` that its play loop
reads and writes. -/
structure RoundState where
  g : Game
  played : Nat → Card
  winning_player : Nat
  winning_value : Int

/-- The value computed at `// Calculate card value` for the card `c`, where
`ref` is the content of `played[dealer]`. -/
def card_value (c ref : Card) (trump_suit : Int) : Int :=
  let v := if c.suit = trump_suit then c.rank + 20
           else if c.suit = ref.suit then c.rank + 10
           else c.rank
  if c.special = 1 then v * 2 else v

/-- The `// Remove from hand` loop and decrement for seat `current`. -/
def remove_front (g : Game) (current : Nat) : Game :=
  { g with
      players := upd g.players current
        { g.players current with
            hand := forLoop (fun j h => upd h j (h (j + 1)))
                      ((g.players current).hand_size - 1).toNat (g.players current).hand,
            hand_size := (g.players current).hand_size - 1 } }

/-- Body of the play loop of `play_round` for loop counter `i`. -/
def play_turn (dealer : Nat) (trump_suit : Int) (i : Nat) (s : RoundState) : RoundState :=
  let current := (dealer + i) % 4
  if (s.g.players current).folded ≠ 0 then s
  else if (s.g.players current).hand_size > 0 then
    let played := upd s.played current ((s.g.players current).hand 0)
    let g1 := if (played current).special > 0
              then activate_special s.g current (played current) else s.g
    let g2 := remove_front g1 current
    let card_value := card_value (played current) (played dealer) trump_suit
    if card_value > s.winning_value then
      { g := g2, played := played, winning_player := current, winning_value := card_value }
    else
      { g := g2, played := played, winning_player := s.winning_player,
        winning_value := s.winning_value }
  else s

/-- The statements of `play_round` after the play loop: payout and reset. -/
def resolve (s : RoundState) : Game :=
  let g := s.g
  let g1 : Game :=
    { g with
        players := upd g.players s.winning_player
          { g.players s.winning_player with
              chips := (g.players s.winning_player).chips + g.pot },
        pot := 0,
        current_bet := 0 }
  { g1 with players := forLoop (fun i ps => upd ps i { ps i with folded := 0 }) 4 g1.players }

/-- The state of `play_round` when its play loop starts: the trump suit has
been drawn, then the betting pass has run. -/
def after_betting (g : Game) (dealer : Nat) : Game :=
  betting_round (get_trump_suit g).2 dealer

/-- The state of `play_round` after `n` passes of its play loop. -/
def play_pass (g : Game) (dealer : Nat) (played0 : Nat → Card) (n : Nat) : RoundState :=
  forLoop (play_turn dealer (get_trump_suit g).1) n
    { g := after_betting g dealer, played := played0,
      winning_player := dealer, winning_value := -1 }

/-- The state of `play_round` when its play loop ends. -/
def play_phase (g : Game) (dealer : Nat) (played0 : Nat → Card) : RoundState :=
  play_pass g dealer played0 4

/-- Function `play_round` (its argument `round_num` is only printed): the
returned seat and the final globals. -/
def play_round (g : Game) (dealer : Nat) (played0 : Nat → Card) : Nat × Game :=
  ((play_phase g dealer played0).winning_player, resolve (play_phase g dealer played0))

/-! ## Derived notions used in the statements -/

/-- The state of `betting_round` after `n` passes of its loop. -/
def betting_pass (g : Game) (dealer n : Nat) : Game :=
  forLoop (bet_turn dealer) n { g with current_bet := 10 }

/-- Sum of the chips of the four players. -/
def chips_sum (ps : Nat → Player) : Int :=
  (ps 0).chips + (ps 1).chips + (ps 2).chips + (ps 3).chips

/-- A state as after `init_game` and an unshuffled deal, with the given chips,
table bet and seed: seat `p` holds the deck cards `p, 4+p, 8+p, 12+p, 16+p`. -/
def table_state (chips : Nat → Int) (bet : Int) (seed : Nat) : Game :=
  { deck := built_card,
    players := fun p =>
      { hand := fun k => built_card (4 * k + p), hand_size := 5, chips := chips p, folded := 0 },
    pot := 0,
    current_bet := bet,
    seed := seed }

/-- A state in the middle of a betting pass where seat 0 (seed 2) draws Call. -/
def call_state : Game := table_state (fun _ => 100) 10 2

/-- A state in the middle of a betting pass where seat 0 (seed 4) draws Raise. -/
def raise_state : Game := table_state (fun _ => 100) 10 4

/-- A state in which every seat holds exactly the table bet of 10. -/
def short_state : Game := table_state (fun _ => 10) 10 1

/-- A state with non-negative chips in which seat 0 holds 15 chips and the
first draw of the betting pass (seed 4) is Raise. -/
def odd_chips_state : Game := table_state (fun p => if p = 0 then 15 else 100) 0 4

/-- Seat `current` acts in the play loop in state `g`: it is not folded and
its hand is not empty. -/
def acts (g : Game) (current : Nat) : Prop :=
  (g.players current).folded = 0 ∧ 0 < (g.players current).hand_size

instance (g : Game) (current : Nat) : Decidable (acts g current) :=
  inferInstanceAs
    (Decidable ((g.players current).folded = 0 ∧ 0 < (g.players current).hand_size))

/-- The globals after the turn of an acting seat: special activation of the
played card `hand[0]` (when its special is positive), then removal of the
front card. -/
def acted_game (g : Game) (current : Nat) : Game :=
  remove_front
    (if ((g.players current).hand 0).special > 0
     then activate_special g current ((g.players current).hand 0) else g)
    current

/-- The value of a played card in the words of the specification: the rank,
plus 20 for a trump card, else plus 10 for a card of the suit of the dealer's
played card (`lead`, absent when the dealer played no card), doubled for a
DoublePoints card. -/
def claimed_value (trump_suit : Int) (lead : Option Card) (c : Card) : Int :=
  let v := if c.suit = trump_suit then c.rank + 20
           else if lead.map Card.suit = some c.suit then c.rank + 10
           else c.rank
  if c.special = 1 then v * 2 else v

/-- A round start as the tournament can reach it: every seat has 100 chips
and five distinct cards, nobody is folded, pot and bet are 0.  Seat 0 holds
2..6 of hearts, seat 1 holds 9..K of diamonds, seat 2 holds 5..9 of clubs,
seat 3 holds 3..7 of spades.  From seed 3 the trump draw gives suit 0 and the
betting draws are Fold, Raise, Call, Call for seats 0, 1, 2, 3. -/
def lead_state : Game :=
  { deck := built_card,
    players := fun p =>
      { hand := fun k =>
          built_card ((if p = 0 then 1 else if p = 1 then 21 else if p = 2 then 30 else 41) + k),
        hand_size := 5, chips := 100, folded := 0 },
    pot := 0,
    current_bet := 0,
    seed := 3 }

/-- A content of the local array `played` at entry of `play_round`: every slot
holds the jack of clubs (as left on the stack by an earlier round). -/
def stale_played : Nat → Card := fun _ => built_card 36

/-- Seat `(dealer+i) % 4` acts at its turn `i` of the play loop of the round
started from `g`. -/
def turn_acts (g : Game) (dealer : Nat) (played0 : Nat → Card) (i : Nat) : Prop :=
  acts (play_pass g dealer played0 i).g ((dealer + i) % 4)

instance (g : Game) (dealer : Nat) (played0 : Nat → Card) (i : Nat) :
    Decidable (turn_acts g dealer played0 i) :=
  inferInstanceAs (Decidable (acts (play_pass g dealer played0 i).g ((dealer + i) % 4)))

/-- The front card of seat `(dealer+i) % 4` at its turn `i`: the card it plays
when it acts. -/
def turn_card (g : Game) (dealer : Nat) (played0 : Nat → Card) (i : Nat) : Card :=
  ((play_pass g dealer played0 i).g.players ((dealer + i) % 4)).hand 0

/-- The content of `played[dealer]` that the value computations of a round
read: the dealer's card when the dealer acts (turn 0), else the initial
content of the slot. -/
def lead_slot (g : Game) (dealer : Nat) (played0 : Nat → Card) : Card :=
  if turn_acts g dealer played0 0 then turn_card g dealer played0 0 else played0 dealer

/-- The value the code computes for the card played at turn `i`. -/
def turn_value (g : Game) (dealer : Nat) (played0 : Nat → Card) (i : Nat) : Int :=
  card_value (turn_card g dealer played0 i) (lead_slot g dealer played0) (get_trump_suit g).1

/-- What the play loop holds after `n` turns: from turn 1 on `played[dealer]`
is `lead_slot`; and either no seat has acted and the locals still name the
dealer with value -1, or they name the earliest of the acting seats with the
greatest value among the first `n` turns. -/
def Tracked (g : Game) (dealer : Nat) (played0 : Nat → Card) (n : Nat) : Prop :=
  (1 ≤ n → (play_pass g dealer played0 n).played dealer = lead_slot g dealer played0) ∧
  (((∀ j, j < n → ¬ turn_acts g dealer played0 j) ∧
      (play_pass g dealer played0 n).winning_player = dealer ∧
      (play_pass g dealer played0 n).winning_value = -1) ∨
    (∃ i, i < n ∧ turn_acts g dealer played0 i ∧
      (play_pass g dealer played0 n).winning_player = (dealer + i) % 4 ∧
      (play_pass g dealer played0 n).winning_value = turn_value g dealer played0 i ∧
      ∀ j, j < n → turn_acts g dealer played0 j →
        turn_value g dealer played0 j ≤ turn_value g dealer played0 i ∧
        (turn_value g dealer played0 j = turn_value g dealer played0 i → i ≤ j)))

/-- Loop invariant of `deal_cards`: in pass `r`, once the seats below `m` have
received their card. -/
def Dealt (deck : Nat → Card) (r m : Nat) (s : DealState) : Prop :=
  s.card_index = 4 * r + m ∧
  ∀ p, p < 4 →
    (s.players p).hand_size = ((if p < m then r + 1 else r : Nat) : Int) ∧
    ∀ k, k < (if p < m then r + 1 else r) → (s.players p).hand k = deck (4 * k + p)

/-! ## The tournament -/

/-- Body of the final loop of `sys_philosopher`:
`if (players[i].chips > players[winner].chips) winner = i`. -/
def winner_step (ps : Nat → Player) (i : Nat) (winner : Nat) : Nat :=
  if (ps i).chips > (ps winner).chips then i else winner

/-- The final loop of `sys_philosopher`, started with `winner = 0`. -/
def tournament_winner (ps : Nat → Player) : Nat :=
  forLoop (winner_step ps) 4 0

/-- The loop of `sys_philosopher` that counts the players with `chips > 0`. -/
def active_players (ps : Nat → Player) : Nat :=
  forLoop (fun i n => if (ps i).chips > 0 then n + 1 else n) 4 0

/-- State of the round loop of `sys_philosopher`: the globals, the local
`dealer`, and whether `break` has been taken. -/
structure TourState where
  g : Game
  dealer : Nat
  stopped : Bool

/-- Body of the round loop of `sys_philosopher`; `stack round` is the content
of the stack where `play_round` finds its local array `played` in that round.
The delay loop has no effect. -/
def tournament_round (stack : Nat → Nat → Card) (round : Nat) (t : TourState) : TourState :=
  if t.stopped then t
  else
    { g := (play_round t.g t.dealer (stack round)).2,
      dealer := (play_round t.g t.dealer (stack round)).1,
      stopped := decide (active_players (play_round t.g t.dealer (stack round)).2.players < 2) }

/-- The globals when the round loop of `sys_philosopher` has ended: after
`init_game`, `shuffle_deck`, `deal_cards`, the draw of the first dealer and at
most 5 rounds. -/
def tournament_end (g : Game) (stack : Nat → Nat → Card) : Game :=
  (forLoop (tournament_round stack) 5
    { g := (simple_rand (deal_cards (shuffle_deck (init_game g)))).2,
      dealer := (simple_rand (deal_cards (shuffle_deck (init_game g)))).1 % 4,
      stopped := false }).g

/-- Function `sys_philosopher` (it returns 0 and prints the winner): the
printed tournament winner and the final globals. -/
def sys_philosopher (g : Game) (stack : Nat → Nat → Card) : Nat × Game :=
  (tournament_winner (tournament_end g stack).players, tournament_end g stack)

/-- The round start `lead_state` with seed 4: the trump draw gives suit 1 and
all four seats draw Call. -/
def trump_state : Game := { lead_state with seed := 4 }

/-- Number of random draws made by the first `n` turns of the betting pass
started from `g`: one for every turn whose seat is not folded when the turn
starts. -/
def betting_draws (g : Game) (dealer : Nat) : Nat → Nat
  | 0 => 0
  | n + 1 =>
    betting_draws g dealer n +
      (if ((betting_pass g dealer n).players ((dealer + n) % 4)).folded = 0 then 1 else 0)

/-- The states of a tournament: any state that has the pot, the bet and the
players' chips and folded flags of `init_game` (deck, hands and seed are
arbitrary, as after any shuffle and deal), and every state that `play_round`
leaves from such a state with a dealer in 0..3 and any content of its local
array. -/
inductive Reachable : Game → Prop
  | start (g s : Game) (hpot : s.pot = (init_game g).pot)
      (hbet : s.current_bet = (init_game g).current_bet)
      (hplayers : ∀ p, p < 4 →
        (s.players p).chips = ((init_game g).players p).chips ∧
        (s.players p).folded = ((init_game g).players p).folded) : Reachable s
  | round (s : Game) (dealer : Nat) (played0 : Nat → Card) (hd : dealer < 4)
      (h : Reachable s) : Reachable (play_round s dealer played0).2

/-- Pot, bet and all four chip counts are non-negative multiples of 10. -/
def Tens (g : Game) : Prop :=
  0 ≤ g.pot ∧ 10 ∣ g.pot ∧ 0 ≤ g.current_bet ∧ 10 ∣ g.current_bet ∧
  ∀ p, p < 4 → 0 ≤ (g.players p).chips ∧ 10 ∣ (g.players p).chips

/-- The cards a player holds: the first `hand_size` entries of the hand array. -/
def hand_list (pl : Player) : List Card :=
  (List.range pl.hand_size.toNat).map pl.hand

/-- The cards held in the four hands, seat by seat. -/
def all_cards (ps : Nat → Player) : List Card :=
  hand_list (ps 0) ++ hand_list (ps 1) ++ hand_list (ps 2) ++ hand_list (ps 3)

/-- A round start as the tournament can reach it: every seat has 100 chips
and five cards, all distinct; seat 0 holds the king of hearts in front of
A..4 of diamonds, seat 1 holds 9..K of diamonds, seat 2 holds 5..9 of clubs,
seat 3 holds 3..7 of spades.  From seed 4 every seat draws Call. -/
def king_state : Game :=
  { deck := built_card,
    players := fun p =>
      { hand := fun k =>
          built_card ((if p = 0 then 12 else if p = 1 then 21 else if p = 2 then 30 else 41) + k),
        hand_size := 5, chips := 100, folded := 0 },
    pot := 0,
    current_bet := 0,
    seed := 4 }

/-- A fifth-round start: every seat holds one last card (seat 0 the king of
hearts, seat 1 the 9 of diamonds, seat 2 the 5 of clubs, seat 3 the 3 of
spades); the chips are 160, 80, 80, 80.  From seed 4 every seat draws Call. -/
def last_cards_state : Game :=
  { deck := built_card,
    players := fun p =>
      { hand := fun k =>
          built_card ((if p = 0 then 12 else if p = 1 then 21 else if p = 2 then 30 else 41) + k),
        hand_size := 1, chips := if p = 0 then 160 else 80, folded := 0 },
    pot := 0,
    current_bet := 0,
    seed := 4 }

/-! ## The range of `int` -/

/-- The values of a 32-bit C `int`. -/
def int_range (x : Int) : Prop :=
  -2147483648 ≤ x ∧ x ≤ 2147483647

instance (x : Int) : Decidable (int_range x) :=
  inferInstanceAs (Decidable (-2147483648 ≤ x ∧ x ≤ 2147483647))

/-- An amount between `-2^29` and `2^29`: sums of two such amounts and the
bets of a round stay inside the range of `int`. -/
def small (x : Int) : Prop :=
  -536870912 ≤ x ∧ x ≤ 536870912

instance (x : Int) : Decidable (small x) :=
  inferInstanceAs (Decidable (-536870912 ≤ x ∧ x ≤ 536870912))

/-- The pot and the four players' chips are between `-2^29` and `2^29`. -/
def money_small (g : Game) : Prop :=
  small g.pot ∧ ∀ p, p < 4 → small (g.players p).chips

/-- Every hand size is between 0 and 5, the capacity of the hand array. -/
def hands_in_bounds (g : Game) : Prop :=
  ∀ p, p < 4 → 0 ≤ (g.players p).hand_size ∧ (g.players p).hand_size ≤ 5

/-- The state `raise_state` with a pot of 2147483640, seven below the greatest
`int`: every field is a value of `int`. -/
def full_pot_state : Game := { raise_state with pot := 2147483640 }

/-- The round start `trump_state` with a pot of 2147483540. -/
def rich_pot_state : Game := { trump_state with pot := 2147483540 }

/-- The round start `king_state` with a pot of 2147483600. -/
def rich_king_state : Game := { king_state with pot := 2147483600 }

/-! ## Chip arithmetic on 32 bits -/

/-- The value a 32-bit two's-complement `int` holds when the exact result of
an addition or subtraction is `x`: `x` itself inside the range of `int`, and
`x` moved by a multiple of `2^32` into that range outside it. -/
def int_wrap (x : Int) : Int :=
  (x + 2147483648) % 4294967296 - 2147483648

/-- Body of the loop of `betting_round` for loop counter `i`, with the
arithmetic of `-=` and `+=` on 32 bits: the same statements as `bet_turn`,
every stored sum and difference reduced by `int_wrap`. -/
def bet_turn_int (dealer : Nat) (i : Nat) (g : Game) : Game :=
  let player := (dealer + i) % 4
  if (g.players player).folded ≠ 0 then g
  else
    let r := (simple_rand g).1
    let g1 := (simple_rand g).2
    let decision : Int :=
      if (g1.players player).chips ≤ g1.current_bet then 0 else ((r % 3 : Nat) : Int)
    if decision = 0 then
      { g1 with players := upd g1.players player { g1.players player with folded := 1 } }
    else if decision = 1 then
      { g1 with
          players := upd g1.players player
            { g1.players player with
                chips := int_wrap ((g1.players player).chips - g1.current_bet) },
          pot := int_wrap (g1.pot + g1.current_bet) }
    else if decision = 2 then
      { g1 with
          current_bet := int_wrap (g1.current_bet + 10),
          players := upd g1.players player
            { g1.players player with
                chips := int_wrap ((g1.players player).chips - int_wrap (g1.current_bet + 10)) },
          pot := int_wrap (g1.pot + int_wrap (g1.current_bet + 10)) }
    else g1

/-- Function `betting_round` with the arithmetic on 32 bits. -/
def betting_round_int (g : Game) (dealer : Nat) : Game :=
  forLoop (bet_turn_int dealer) 4 { g with current_bet := 10 }

/-- The state of `betting_round` after `n` passes of its loop, with the
arithmetic on 32 bits. -/
def betting_pass_int (g : Game) (dealer n : Nat) : Game :=
  forLoop (bet_turn_int dealer) n { g with current_bet := 10 }

/-- The statements of `play_round` after the play loop, with the payout
`chips += pot` on 32 bits. -/
def resolve_int (s : RoundState) : Game :=
  let g := s.g
  let g1 : Game :=
    { g with
        players := upd g.players s.winning_player
          { g.players s.winning_player with
              chips := int_wrap ((g.players s.winning_player).chips + g.pot) },
        pot := 0,
        current_bet := 0 }
  { g1 with players := forLoop (fun i ps => upd ps i { ps i with folded := 0 }) 4 g1.players }

/-- The state of `play_round` when its play loop starts, with the betting
arithmetic on 32 bits. -/
def after_betting_int (g : Game) (dealer : Nat) : Game :=
  betting_round_int (get_trump_suit g).2 dealer

/-- The state of `play_round` when its play loop ends, with the betting
arithmetic on 32 bits. -/
def play_phase_int (g : Game) (dealer : Nat) (played0 : Nat → Card) : RoundState :=
  forLoop (play_turn dealer (get_trump_suit g).1) 4
    { g := after_betting_int g dealer, played := played0,
      winning_player := dealer, winning_value := -1 }

/-- Function `play_round` with the chip arithmetic of the betting pass and of
the payout on 32 bits: the returned seat and the final globals. -/
def play_round_int (g : Game) (dealer : Nat) (played0 : Nat → Card) : Nat × Game :=
  ((play_phase_int g dealer played0).winning_player, resolve_int (play_phase_int g dealer played0))

/-! # Properties -/

/-! ## Basic facts about stores and loops -/

@[simp] theorem upd_same {α : Type} (a : Nat → α) (i : Nat) (v : α) : upd a i v i = v := by
  simp [upd]

theorem upd_other {α : Type} (a : Nat → α) {i k : Nat} (v : α) (h : k ≠ i) :
    upd a i v k = a k := by
  simp [upd, h]

theorem upd_apply {α : Type} (a : Nat → α) (i k : Nat) (v : α) :
    upd a i v k = if k = i then v else a k := rfl

@[simp] theorem forLoop_zero {σ : Type} (body : Nat → σ → σ) (s : σ) :
    forLoop body 0 s = s := rfl

theorem forLoop_succ {σ : Type} (body : Nat → σ → σ) (n : Nat) (s : σ) :
    forLoop body (n + 1) s = body n (forLoop body n s) := rfl

/-- An invariant kept by every pass of a loop holds when the loop ends. -/
theorem forLoop_invariant {σ : Type} (body : Nat → σ → σ) (inv : Nat → σ → Prop)
    (n : Nat) (s : σ) (h0 : inv 0 s)
    (hstep : ∀ i t, i < n → inv i t → inv (i + 1) (body i t)) :
    inv n (forLoop body n s) := by
  induction n with
  | zero => exact h0
  | succ m ih =>
    rw [forLoop_succ]
    exact hstep m _ (Nat.lt_succ_self m)
      (ih (fun i t hi hinv => hstep i t (Nat.lt_succ_of_lt hi) hinv))

/-! ## C10: the random number generator -/

theorem lcg_eq (s : Nat) : lcg s = (1103515245 * s + 12345) % 2 ^ 31 := by
  unfold lcg
  omega

/-- C10: `simple_rand` stores in the seed, and returns, exactly
`(1103515245*s + 12345) mod 2^31` computed over the unbounded naturals, for
every seed `s` (in particular every 32-bit one); the value is below `2^31`,
nothing but the seed changes, and two states with the same seed give the same
value. -/
theorem simple_rand_exact (g : Game) :
    (simple_rand g).1 = (1103515245 * g.seed + 12345) % 2 ^ 31 ∧
    (simple_rand g).2.seed = (1103515245 * g.seed + 12345) % 2 ^ 31 ∧
    (simple_rand g).1 < 2 ^ 31 ∧
    (simple_rand g).2 = { g with seed := (1103515245 * g.seed + 12345) % 2 ^ 31 } ∧
    ∀ g2 : Game, g2.seed = g.seed → (simple_rand g2).1 = (simple_rand g).1 := by
  refine ⟨lcg_eq _, lcg_eq _, ?_, ?_, ?_⟩
  · show lcg g.seed < 2 ^ 31
    rw [lcg_eq]
    exact Nat.mod_lt _ (by norm_num)
  · show ({ g with seed := lcg g.seed } : Game) = _
    rw [lcg_eq]
  · intro g2 h
    show lcg g2.seed = lcg g.seed
    rw [h]

/-! ## C7: deck construction -/

theorem forLoop_init_card (n : Nat) (d : Nat → Card) (k : Nat) :
    forLoop init_card n d k = if k < n then built_card k else d k := by
  induction n with
  | zero => simp
  | succ m ih =>
    rw [forLoop_succ, init_card, upd_apply]
    by_cases hk : k = m
    · subst hk
      simp [built_card]
    · rw [if_neg hk, ih]
      by_cases hlt : k < m
      · simp [hlt, Nat.lt_succ_of_lt hlt]
      · have : ¬ k < m + 1 := by omega
        simp [hlt, this]

theorem init_game_deck (g : Game) (i : Nat) (hi : i < 52) :
    (init_game g).deck i = built_card i := by
  show forLoop init_card 52 g.deck i = built_card i
  rw [forLoop_init_card, if_pos hi]

/-- C7: after `init_game`, for every index `i < 52` the card `deck[i]` has suit
`i/13` and rank `i%13` (suit-major, rank-minor order); the 52 (suit, rank)
pairs are pairwise distinct and every pair of a suit in 0..3 and a rank in
0..12 occurs; and the special of every card is determined by its rank:
rank 0 gives 1, rank 12 gives 2, rank 11 gives 3, any other rank gives 0. -/
theorem init_game_deck_canonical (g : Game) :
    (∀ i, i < 52 →
      ((init_game g).deck i).suit = ((i / 13 : Nat) : Int) ∧
      ((init_game g).deck i).rank = ((i % 13 : Nat) : Int)) ∧
    (∀ i j, i < 52 → j < 52 →
      ((init_game g).deck i).suit = ((init_game g).deck j).suit →
      ((init_game g).deck i).rank = ((init_game g).deck j).rank → i = j) ∧
    (∀ s r : Nat, s < 4 → r < 13 →
      ∃ i, i < 52 ∧ ((init_game g).deck i).suit = (s : Int) ∧
        ((init_game g).deck i).rank = (r : Int)) ∧
    (∀ i, i < 52 →
      ((init_game g).deck i).special =
        if ((init_game g).deck i).rank = 0 then 1
        else if ((init_game g).deck i).rank = 12 then 2
        else if ((init_game g).deck i).rank = 11 then 3
        else 0) := by
  refine ⟨?_, ?_, ?_, ?_⟩
  · intro i hi
    rw [init_game_deck g i hi]
    exact ⟨rfl, rfl⟩
  · intro i j hi hj hs hr
    rw [init_game_deck g i hi, init_game_deck g j hj] at hs hr
    simp only [built_card] at hs hr
    omega
  · intro s r hs hr
    refine ⟨13 * s + r, by omega, ?_, ?_⟩
    · rw [init_game_deck g _ (by omega)]
      simp only [built_card]
      omega
    · rw [init_game_deck g _ (by omega)]
      simp only [built_card]
      omega
  · intro i hi
    rw [init_game_deck g i hi]
    simp only [built_card, special_of]
    have h13 : i % 13 < 13 := Nat.mod_lt _ (by norm_num)
    by_cases h0 : i % 13 = 0
    · simp [h0]
    · by_cases h12 : i % 13 = 12
      · simp [h12]
      · by_cases h11 : i % 13 = 11
        · simp [h11]
        · have e0 : ¬ (((i % 13 : Nat) : Int) = 0) := by omega
          have e12 : ¬ (((i % 13 : Nat) : Int) = 12) := by omega
          have e11 : ¬ (((i % 13 : Nat) : Int) = 11) := by omega
          simp only [h0, h12, h11, e0, e12, e11, if_false]

/-! ## C8: the shuffle -/

theorem swap_index_le (seed i : Nat) : swap_index seed i ≤ i := by
  unfold swap_index
  exact Nat.lt_succ_iff.mp (Nat.mod_lt _ (Nat.succ_pos i))

theorem swap_cards_eq_comp (d : Nat → Card) (i j k : Nat) :
    swap_cards d i j k = d (Equiv.swap i j k) := by
  unfold swap_cards
  rw [upd_apply, upd_apply]
  by_cases hj : k = j
  · subst hj
    simp
  · by_cases hi : k = i
    · subst hi
      simp [hj]
    · simp [hi, hj, Equiv.swap_apply_of_ne_of_ne hi hj]

/-- Exchanging two entries below `n` keeps the multiset of the first `n` entries. -/
theorem swap_cards_multiset (d : Nat → Card) (n i j : Nat) (hi : i < n) (hj : j < n) :
    Multiset.map (swap_cards d i j) (Multiset.range n) = Multiset.map d (Multiset.range n) := by
  have hfun : swap_cards d i j = d ∘ (Equiv.swap i j) := by
    funext k
    exact swap_cards_eq_comp d i j k
  have hperm : (Finset.range n).map (Equiv.swap i j).toEmbedding = Finset.range n := by
    apply Finset.map_perm
    intro a ha
    simp only [Set.mem_setOf_eq] at ha
    simp only [Finset.coe_range, Set.mem_Iio]
    by_contra hlt
    apply ha
    apply Equiv.swap_apply_of_ne_of_ne <;> omega
  have hval := congrArg Finset.val hperm
  rw [Finset.map_val, Finset.range_val] at hval
  rw [hfun, ← Multiset.map_map, show (⇑(Equiv.swap i j)) = ⇑(Equiv.swap i j).toEmbedding from rfl,
    hval]

theorem shuffle_step_deck (k : Nat) (g : Game) :
    (shuffle_step k g).deck = swap_cards g.deck (51 - k) (swap_index g.seed (51 - k)) := rfl

theorem shuffle_step_seed (k : Nat) (g : Game) : (shuffle_step k g).seed = lcg g.seed := rfl

theorem shuffle_prefix_multiset (g : Game) (n : Nat) :
    Multiset.map (forLoop shuffle_step n g).deck (Multiset.range 52) =
      Multiset.map g.deck (Multiset.range 52) := by
  induction n with
  | zero => rfl
  | succ m ih =>
    rw [forLoop_succ, shuffle_step_deck, swap_cards_multiset _ 52 _ _ (by omega), ih]
    have := swap_index_le (forLoop shuffle_step m g).seed (51 - m)
    omega

/-- Two runs of the shuffle loop from states with the same seed and the same
52 deck entries stay in step. -/
theorem shuffle_prefix_deterministic (g g2 : Game) (hseed : g2.seed = g.seed)
    (hdeck : ∀ k, k < 52 → g2.deck k = g.deck k) (n : Nat) :
    (forLoop shuffle_step n g2).seed = (forLoop shuffle_step n g).seed ∧
    ∀ k, k < 52 → (forLoop shuffle_step n g2).deck k = (forLoop shuffle_step n g).deck k := by
  induction n with
  | zero => exact ⟨hseed, hdeck⟩
  | succ m ih =>
    obtain ⟨hs, hd⟩ := ih
    rw [forLoop_succ, forLoop_succ]
    refine ⟨by rw [shuffle_step_seed, shuffle_step_seed, hs], ?_⟩
    intro k hk
    have hj := swap_index_le (forLoop shuffle_step m g).seed (51 - m)
    rw [shuffle_step_deck, shuffle_step_deck, hs]
    unfold swap_cards
    rw [upd_apply, upd_apply, upd_apply, upd_apply, hd k hk, hd (51 - m) (by omega),
      hd _ (by omega)]

/-- C8: for every deck and seed, `shuffle_deck` leaves the multiset of the 52
deck cards unchanged; at each of its 51 passes the index `i = 51 - k` and the
drawn swap index `j` satisfy `j <= i < 52` (and `0 < i`); and the resulting
seed and the resulting 52 deck entries are determined by the seed and the 52
deck entries at entry. -/
theorem shuffle_deck_permutation (g : Game) :
    Multiset.map (shuffle_deck g).deck (Multiset.range 52) =
      Multiset.map g.deck (Multiset.range 52) ∧
    (∀ k, k < 51 →
      swap_index (forLoop shuffle_step k g).seed (51 - k) ≤ 51 - k ∧
      0 < 51 - k ∧ 51 - k < 52 ∧
      (forLoop shuffle_step (k + 1) g).deck =
        swap_cards (forLoop shuffle_step k g).deck (51 - k)
          (swap_index (forLoop shuffle_step k g).seed (51 - k))) ∧
    (∀ g2 : Game, g2.seed = g.seed → (∀ k, k < 52 → g2.deck k = g.deck k) →
      (shuffle_deck g2).seed = (shuffle_deck g).seed ∧
      ∀ k, k < 52 → (shuffle_deck g2).deck k = (shuffle_deck g).deck k) := by
  refine ⟨shuffle_prefix_multiset g 51, ?_, ?_⟩
  · intro k hk
    exact ⟨swap_index_le _ _, by omega, by omega, rfl⟩
  · intro g2 hseed hdeck
    exact shuffle_prefix_deterministic g g2 hseed hdeck 51

/-! ## C9: dealing -/

theorem deal_one_dealt (deck : Nat → Card) (r m : Nat) (s : DealState) (hr : r < 5)
    (hm : m < 4) (h : Dealt deck r m s) : Dealt deck r (m + 1) (deal_one deck m s) := by
  obtain ⟨hci, hp⟩ := h
  have hlt : s.card_index < 52 := by omega
  have hsz : (s.players m).hand_size = (r : Int) := by
    have := (hp m hm).1
    simpa using this
  unfold deal_one
  rw [if_pos hlt]
  refine ⟨by simp only []; omega, ?_⟩
  intro p hp4
  simp only []
  by_cases hpm : p = m
  · subst hpm
    rw [upd_same]
    simp only [hsz, Int.toNat_ofNat, Nat.lt_succ_self, if_true]
    refine ⟨by push_cast; ring, ?_⟩
    intro k hk
    by_cases hkr : k = r
    · subst hkr
      rw [upd_same, hci]
    · rw [upd_other _ _ hkr]
      have := (hp p hp4).2 k
      simp only [Nat.lt_irrefl, if_false] at this
      exact this (by omega)
  · rw [upd_other _ _ hpm]
    have h0 := hp p hp4
    by_cases hlt2 : p < m
    · have hlt3 : p < m + 1 := Nat.lt_succ_of_lt hlt2
      simp only [hlt2, hlt3, if_true] at h0 ⊢
      exact h0
    · have hlt3 : ¬ p < m + 1 := by omega
      simp only [hlt2, hlt3, if_false] at h0 ⊢
      exact h0

theorem deal_pass_dealt (deck : Nat → Card) (r : Nat) (s : DealState) (hr : r < 5)
    (h : Dealt deck r 0 s) : Dealt deck (r + 1) 0 (deal_pass deck r s) := by
  have h4 : Dealt deck r 4 (forLoop (deal_one deck) 4 s) :=
    forLoop_invariant (deal_one deck) (fun m t => Dealt deck r m t) 4 s h
      (fun i t hi hinv => deal_one_dealt deck r i t hr hi hinv)
  obtain ⟨hci, hp⟩ := h4
  refine ⟨by show (forLoop (deal_one deck) 4 s).card_index = _; omega, ?_⟩
  intro p hp4
  have := hp p hp4
  simp only [hp4, if_true] at this
  simpa using this

theorem deal_cards_dealt (g : Game) (hempty : ∀ p, p < 4 → (g.players p).hand_size = 0) :
    Dealt g.deck 5 0 (forLoop (deal_pass g.deck) 5 ⟨g.players, 0⟩) := by
  apply forLoop_invariant (deal_pass g.deck) (fun r t => Dealt g.deck r 0 t) 5
  · refine ⟨rfl, ?_⟩
    intro p hp
    simp only [Nat.not_lt_zero, if_false]
    exact ⟨by simpa using hempty p hp, fun k hk => hk.elim⟩
  · intro i t hi hinv
    exact deal_pass_dealt g.deck i t hi hinv

theorem deal_cards_players (g : Game) :
    (deal_cards g).players = (forLoop (deal_pass g.deck) 5 ⟨g.players, 0⟩).players := by
  simp only [deal_cards]

theorem dealt_full (deck : Nat → Card) (s : DealState) (h : Dealt deck 5 0 s) :
    ∀ p, p < 4 →
      (s.players p).hand_size = 5 ∧ ∀ k, k < 5 → (s.players p).hand k = deck (4 * k + p) := by
  intro p hp
  obtain ⟨_, h2⟩ := h
  have := h2 p hp
  simp only [Nat.not_lt_zero, if_false] at this
  exact ⟨by simpa using this.1, this.2⟩

/-- C9: for a deck whose 52 cards are pairwise distinct and four players with
empty hands, after `deal_cards` every seat `p < 4` has `hand_size = 5` and
`hand[k] = deck[4*k + p]` for `k < 5`; every one of the first 20 deck cards
is in some hand and every dealt hand slot holds one of the first 20 deck
cards; and two hand slots (of one seat or of two seats) never hold the same
card. -/
theorem deal_cards_round_robin (g : Game)
    (hdistinct : ∀ i j, i < 52 → j < 52 → g.deck i = g.deck j → i = j)
    (hempty : ∀ p, p < 4 → (g.players p).hand_size = 0) :
    (∀ p, p < 4 →
      ((deal_cards g).players p).hand_size = 5 ∧
      ∀ k, k < 5 → ((deal_cards g).players p).hand k = g.deck (4 * k + p)) ∧
    (∀ c, c < 20 → ∃ p k, p < 4 ∧ k < 5 ∧ ((deal_cards g).players p).hand k = g.deck c) ∧
    (∀ p k, p < 4 → k < 5 → ∃ c, c < 20 ∧ ((deal_cards g).players p).hand k = g.deck c) ∧
    (∀ p k q l, p < 4 → k < 5 → q < 4 → l < 5 →
      ((deal_cards g).players p).hand k = ((deal_cards g).players q).hand l →
      p = q ∧ k = l) := by
  have hmain : ∀ p, p < 4 →
      ((deal_cards g).players p).hand_size = 5 ∧
      ∀ k, k < 5 → ((deal_cards g).players p).hand k = g.deck (4 * k + p) := by
    rw [deal_cards_players]
    exact dealt_full g.deck _ (deal_cards_dealt g hempty)
  refine ⟨hmain, ?_, ?_, ?_⟩
  · intro c hc
    refine ⟨c % 4, c / 4, Nat.mod_lt _ (by norm_num), by omega, ?_⟩
    rw [(hmain (c % 4) (Nat.mod_lt _ (by norm_num))).2 (c / 4) (by omega)]
    congr 1
    omega
  · intro p k hp hk
    exact ⟨4 * k + p, by omega, (hmain p hp).2 k hk⟩
  · intro p k q l hp hk hq hl heq
    rw [(hmain p hp).2 k hk, (hmain q hq).2 l hl] at heq
    have := hdistinct _ _ (by omega) (by omega) heq
    omega

theorem deal_cards_round_robin_witness :
    ((deal_cards (init_game short_state)).players 0).hand_size = 5 ∧
    ((deal_cards (init_game short_state)).players 3).hand 4 = (init_game short_state).deck 19 :=
  ⟨((deal_cards_round_robin (init_game short_state)
      (fun i j hi hj h => by
        rw [init_game_deck _ i hi, init_game_deck _ j hj] at h
        have h1 := congrArg Card.suit h
        have h2 := congrArg Card.rank h
        simp only [built_card] at h1 h2
        omega)
      (fun p hp => by
        interval_cases p <;> rfl)).1 0 (by decide)).1,
   ((deal_cards_round_robin (init_game short_state)
      (fun i j hi hj h => by
        rw [init_game_deck _ i hi, init_game_deck _ j hj] at h
        have h1 := congrArg Card.suit h
        have h2 := congrArg Card.rank h
        simp only [built_card] at h1 h2
        omega)
      (fun p hp => by
        interval_cases p <;> rfl)).1 3 (by decide)).2 4 (by decide)⟩

/-! ## The betting pass: the four outcomes of one turn -/

@[simp] theorem simple_rand_value (g : Game) : (simple_rand g).1 = lcg g.seed := rfl
@[simp] theorem simple_rand_seed (g : Game) : (simple_rand g).2.seed = lcg g.seed := rfl
theorem simple_rand_state (g : Game) : (simple_rand g).2 = { g with seed := lcg g.seed } := rfl

theorem get_trump_suit_state (g : Game) : (get_trump_suit g).2 = (simple_rand g).2 := rfl

@[simp] theorem simple_rand_deck (g : Game) : (simple_rand g).2.deck = g.deck := by
  rw [simple_rand_state]

@[simp] theorem simple_rand_players (g : Game) : (simple_rand g).2.players = g.players := by
  rw [simple_rand_state]

@[simp] theorem simple_rand_pot (g : Game) : (simple_rand g).2.pot = g.pot := by
  rw [simple_rand_state]

@[simp] theorem simple_rand_current_bet (g : Game) :
    (simple_rand g).2.current_bet = g.current_bet := by
  rw [simple_rand_state]

theorem bet_turn_skip (dealer i : Nat) (g : Game)
    (hf : (g.players ((dealer + i) % 4)).folded ≠ 0) : bet_turn dealer i g = g := by
  unfold bet_turn
  simp only [hf, ne_eq, not_false_eq_true, if_true]

theorem bet_turn_fold (dealer i : Nat) (g : Game)
    (hf : (g.players ((dealer + i) % 4)).folded = 0)
    (h : (g.players ((dealer + i) % 4)).chips ≤ g.current_bet ∨ lcg g.seed % 3 = 0) :
    bet_turn dealer i g =
      { g with
          seed := lcg g.seed,
          players := upd g.players ((dealer + i) % 4)
            { g.players ((dealer + i) % 4) with folded := 1 } } := by
  unfold bet_turn
  rw [simple_rand_state, simple_rand_value]
  simp only [hf, ne_eq, not_true_eq_false, if_false]
  rcases h with h | h
  · simp only [h, if_true]
  · by_cases hc : (g.players ((dealer + i) % 4)).chips ≤ g.current_bet
    · simp only [hc, if_true]
    · simp only [hc, if_false, h, Nat.cast_zero, if_true]

theorem bet_turn_call (dealer i : Nat) (g : Game)
    (hf : (g.players ((dealer + i) % 4)).folded = 0)
    (hc : g.current_bet < (g.players ((dealer + i) % 4)).chips)
    (h : lcg g.seed % 3 = 1) :
    bet_turn dealer i g =
      { g with
          seed := lcg g.seed,
          players := upd g.players ((dealer + i) % 4)
            { g.players ((dealer + i) % 4) with
                chips := (g.players ((dealer + i) % 4)).chips - g.current_bet },
          pot := g.pot + g.current_bet } := by
  unfold bet_turn
  have hc2 : ¬ (g.players ((dealer + i) % 4)).chips ≤ g.current_bet := not_le.mpr hc
  rw [simple_rand_state, simple_rand_value]
  simp only [hf, ne_eq, not_true_eq_false, if_false, hc2, h]
  simp

theorem bet_turn_raise (dealer i : Nat) (g : Game)
    (hf : (g.players ((dealer + i) % 4)).folded = 0)
    (hc : g.current_bet < (g.players ((dealer + i) % 4)).chips)
    (h : lcg g.seed % 3 = 2) :
    bet_turn dealer i g =
      { g with
          seed := lcg g.seed,
          current_bet := g.current_bet + 10,
          players := upd g.players ((dealer + i) % 4)
            { g.players ((dealer + i) % 4) with
                chips := (g.players ((dealer + i) % 4)).chips - (g.current_bet + 10) },
          pot := g.pot + (g.current_bet + 10) } := by
  unfold bet_turn
  have hc2 : ¬ (g.players ((dealer + i) % 4)).chips ≤ g.current_bet := not_le.mpr hc
  rw [simple_rand_state, simple_rand_value]
  simp only [hf, ne_eq, not_true_eq_false, if_false, hc2, h]
  simp

/-- Every turn of the betting pass is one of: skip, fold, call, raise. -/
theorem bet_turn_cases (dealer i : Nat) (g : Game) :
    ((g.players ((dealer + i) % 4)).folded ≠ 0) ∨
    ((g.players ((dealer + i) % 4)).folded = 0 ∧
      ((g.players ((dealer + i) % 4)).chips ≤ g.current_bet ∨ lcg g.seed % 3 = 0)) ∨
    ((g.players ((dealer + i) % 4)).folded = 0 ∧
      g.current_bet < (g.players ((dealer + i) % 4)).chips ∧ lcg g.seed % 3 = 1) ∨
    ((g.players ((dealer + i) % 4)).folded = 0 ∧
      g.current_bet < (g.players ((dealer + i) % 4)).chips ∧ lcg g.seed % 3 = 2) := by
  by_cases hf : (g.players ((dealer + i) % 4)).folded = 0
  · right
    by_cases hc : (g.players ((dealer + i) % 4)).chips ≤ g.current_bet
    · exact Or.inl ⟨hf, Or.inl hc⟩
    · have hc2 := not_le.mp hc
      have h3 : lcg g.seed % 3 < 3 := Nat.mod_lt _ (by norm_num)
      have : lcg g.seed % 3 = 0 ∨ lcg g.seed % 3 = 1 ∨ lcg g.seed % 3 = 2 := by omega
      rcases this with h | h | h
      · exact Or.inl ⟨hf, Or.inr h⟩
      · exact Or.inr (Or.inl ⟨hf, hc2, h⟩)
      · exact Or.inr (Or.inr ⟨hf, hc2, h⟩)
  · exact Or.inl hf

/-! ## C5 and C6: what one betting turn does -/

theorem bet_turn_frame (dealer i : Nat) (g : Game) (p : Nat) (hp : p ≠ (dealer + i) % 4) :
    (bet_turn dealer i g).players p = g.players p := by
  rcases bet_turn_cases dealer i g with h | ⟨hf, h⟩ | ⟨hf, hc, h⟩ | ⟨hf, hc, h⟩
  · rw [bet_turn_skip dealer i g h]
  · rw [bet_turn_fold dealer i g hf h]
    exact upd_other _ _ hp
  · rw [bet_turn_call dealer i g hf hc h]
    exact upd_other _ _ hp
  · rw [bet_turn_raise dealer i g hf hc h]
    exact upd_other _ _ hp

theorem betting_round_unrolled (g : Game) (dealer : Nat) :
    betting_round g dealer =
      bet_turn dealer 3 (bet_turn dealer 2 (bet_turn dealer 1
        (bet_turn dealer 0 { g with current_bet := 10 }))) := by
  rw [betting_round, forLoop_succ, forLoop_succ, forLoop_succ, forLoop_succ, forLoop_zero]

/-! ## The 32-bit betting turn -/

theorem int_wrap_eq (x : Int) (h : int_range x) : int_wrap x = x := by
  unfold int_range at h
  unfold int_wrap
  omega

theorem bet_turn_int_skip (dealer i : Nat) (g : Game)
    (hf : (g.players ((dealer + i) % 4)).folded ≠ 0) : bet_turn_int dealer i g = g := by
  unfold bet_turn_int
  simp only [hf, ne_eq, not_false_eq_true, if_true]

theorem bet_turn_int_fold (dealer i : Nat) (g : Game)
    (hf : (g.players ((dealer + i) % 4)).folded = 0)
    (h : (g.players ((dealer + i) % 4)).chips ≤ g.current_bet ∨ lcg g.seed % 3 = 0) :
    bet_turn_int dealer i g =
      { g with
          seed := lcg g.seed,
          players := upd g.players ((dealer + i) % 4)
            { g.players ((dealer + i) % 4) with folded := 1 } } := by
  unfold bet_turn_int
  rw [simple_rand_state, simple_rand_value]
  simp only [hf, ne_eq, not_true_eq_false, if_false]
  rcases h with h | h
  · simp only [h, if_true]
  · by_cases hc : (g.players ((dealer + i) % 4)).chips ≤ g.current_bet
    · simp only [hc, if_true]
    · simp only [hc, if_false, h, Nat.cast_zero, if_true]

theorem bet_turn_int_call (dealer i : Nat) (g : Game)
    (hf : (g.players ((dealer + i) % 4)).folded = 0)
    (hc : g.current_bet < (g.players ((dealer + i) % 4)).chips)
    (h : lcg g.seed % 3 = 1) :
    bet_turn_int dealer i g =
      { g with
          seed := lcg g.seed,
          players := upd g.players ((dealer + i) % 4)
            { g.players ((dealer + i) % 4) with
                chips := int_wrap ((g.players ((dealer + i) % 4)).chips - g.current_bet) },
          pot := int_wrap (g.pot + g.current_bet) } := by
  unfold bet_turn_int
  have hc2 : ¬ (g.players ((dealer + i) % 4)).chips ≤ g.current_bet := not_le.mpr hc
  rw [simple_rand_state, simple_rand_value]
  simp only [hf, ne_eq, not_true_eq_false, if_false, hc2, h]
  simp

theorem bet_turn_int_raise (dealer i : Nat) (g : Game)
    (hf : (g.players ((dealer + i) % 4)).folded = 0)
    (hc : g.current_bet < (g.players ((dealer + i) % 4)).chips)
    (h : lcg g.seed % 3 = 2) :
    bet_turn_int dealer i g =
      { g with
          seed := lcg g.seed,
          current_bet := int_wrap (g.current_bet + 10),
          players := upd g.players ((dealer + i) % 4)
            { g.players ((dealer + i) % 4) with
                chips := int_wrap ((g.players ((dealer + i) % 4)).chips -
                  int_wrap (g.current_bet + 10)) },
          pot := int_wrap (g.pot + int_wrap (g.current_bet + 10)) } := by
  unfold bet_turn_int
  have hc2 : ¬ (g.players ((dealer + i) % 4)).chips ≤ g.current_bet := not_le.mpr hc
  rw [simple_rand_state, simple_rand_value]
  simp only [hf, ne_eq, not_true_eq_false, if_false, hc2, h]
  simp

theorem bet_turn_int_frame (dealer i : Nat) (g : Game) (p : Nat) (hp : p ≠ (dealer + i) % 4) :
    (bet_turn_int dealer i g).players p = g.players p := by
  rcases bet_turn_cases dealer i g with h | ⟨hf, h⟩ | ⟨hf, hc, h⟩ | ⟨hf, hc, h⟩
  · rw [bet_turn_int_skip dealer i g h]
  · rw [bet_turn_int_fold dealer i g hf h]
    exact upd_other _ _ hp
  · rw [bet_turn_int_call dealer i g hf hc h]
    exact upd_other _ _ hp
  · rw [bet_turn_int_raise dealer i g hf hc h]
    exact upd_other _ _ hp

/-- Where the exact results of the turn are values of `int`, the 32-bit turn
is the turn computed with exact integers. -/
theorem bet_turn_int_eq (dealer i : Nat) (g : Game)
    (hb : int_range (g.current_bet + 10))
    (hp1 : int_range (g.pot + g.current_bet))
    (hp2 : int_range (g.pot + (g.current_bet + 10)))
    (hc1 : int_range ((g.players ((dealer + i) % 4)).chips - g.current_bet))
    (hc2 : int_range ((g.players ((dealer + i) % 4)).chips - (g.current_bet + 10))) :
    bet_turn_int dealer i g = bet_turn dealer i g := by
  rcases bet_turn_cases dealer i g with h | ⟨hf, h⟩ | ⟨hf, hc, h⟩ | ⟨hf, hc, h⟩
  · rw [bet_turn_int_skip dealer i g h, bet_turn_skip dealer i g h]
  · rw [bet_turn_int_fold dealer i g hf h, bet_turn_fold dealer i g hf h]
  · rw [bet_turn_int_call dealer i g hf hc h, bet_turn_call dealer i g hf hc h,
      int_wrap_eq _ hp1, int_wrap_eq _ hc1]
  · rw [bet_turn_int_raise dealer i g hf hc h, bet_turn_raise dealer i g hf hc h,
      int_wrap_eq _ hb, int_wrap_eq _ hp2, int_wrap_eq _ hc2]

theorem betting_round_int_unrolled (g : Game) (dealer : Nat) :
    betting_round_int g dealer =
      bet_turn_int dealer 3 (bet_turn_int dealer 2 (bet_turn_int dealer 1
        (bet_turn_int dealer 0 { g with current_bet := 10 }))) := by
  rw [betting_round_int, forLoop_succ, forLoop_succ, forLoop_succ, forLoop_succ, forLoop_zero]

/-- C5: in the loop body of `betting_round`, for every state (so every seed
and every value the generator returns), a non-folded player whose chips are
`<= current_bet` at their turn is folded: the folded flag becomes 1, and the
player's chips, the pot and `current_bet` are unchanged by the turn. -/
theorem forced_fold (dealer i : Nat) (g : Game)
    (hf : (g.players ((dealer + i) % 4)).folded = 0)
    (hc : (g.players ((dealer + i) % 4)).chips ≤ g.current_bet) :
    ((bet_turn dealer i g).players ((dealer + i) % 4)).folded = 1 ∧
    ((bet_turn dealer i g).players ((dealer + i) % 4)).chips =
      (g.players ((dealer + i) % 4)).chips ∧
    (bet_turn dealer i g).pot = g.pot ∧
    (bet_turn dealer i g).current_bet = g.current_bet := by
  rw [bet_turn_fold dealer i g hf (Or.inl hc)]
  simp

theorem forced_fold_witness :
    (short_state.players ((0 + 0) % 4)).folded = 0 ∧
    (short_state.players ((0 + 0) % 4)).chips ≤ short_state.current_bet ∧
    ((bet_turn 0 0 short_state).players ((0 + 0) % 4)).folded = 1 ∧
    ((bet_turn 0 0 short_state).players ((0 + 0) % 4)).chips =
      (short_state.players ((0 + 0) % 4)).chips ∧
    (bet_turn 0 0 short_state).pot = short_state.pot ∧
    (bet_turn 0 0 short_state).current_bet = short_state.current_bet :=
  ⟨rfl, by decide, forced_fold 0 0 short_state rfl (by decide)⟩

/-- C6, counterexample: in `full_pot_state` (pot 2147483640, bet 10, every
field a value of `int`) the dealer, seat 0, is not folded, holds 100 chips,
more than the bet, and draws Raise.  The bet becomes 20 and the chips 80, but
the pot does not grow by 20: `pot += 20` leaves the range of `int` and the
32-bit pot is -2147483636, lower than before. -/
theorem raise_wraps_pot :
    int_range full_pot_state.pot ∧ int_range full_pot_state.current_bet ∧
    int_range (full_pot_state.players ((0 + 0) % 4)).chips ∧
    (full_pot_state.players ((0 + 0) % 4)).folded = 0 ∧
    full_pot_state.current_bet < (full_pot_state.players ((0 + 0) % 4)).chips ∧
    (simple_rand full_pot_state).1 % 3 = 2 ∧
    (bet_turn_int 0 0 full_pot_state).current_bet = 20 ∧
    ((bet_turn_int 0 0 full_pot_state).players ((0 + 0) % 4)).chips = 80 ∧
    (bet_turn_int 0 0 full_pot_state).pot = -2147483636 ∧
    (bet_turn_int 0 0 full_pot_state).pot ≠
      full_pot_state.pot + (full_pot_state.current_bet + 10) ∧
    (bet_turn_int 0 0 full_pot_state).pot < full_pot_state.pot := by
  decide!

/-- C6, amended: in the loop body of `betting_round` on 32-bit `int`s, for a
non-folded player whose chips exceed the current bet `b`: when the drawn value
mod 3 is 1 (Call) and `chips - b` and `pot + b` are values of `int`, the
player's chips drop by `b`, the pot grows by `b` and `current_bet` stays `b`;
when it is 2 (Raise) and `b + 10`, `chips - (b + 10)` and `pot + (b + 10)` are
values of `int`, `current_bet` becomes `b+10` and the player's chips drop by
`b+10` while the pot grows by `b+10`; in both cases the turn is the one
computed with exact integers.  `betting_round` is the four turns with
counters 0, 1, 2, 3 run from the entry state with `current_bet = 10`; the turn
with counter `j` changes no player but seat `(dealer+j) % 4`, and for a dealer
in 0..3 these seats start at the dealer, are pairwise distinct and cover the
four seats. -/
theorem call_and_raise (dealer i : Nat) (g g0 : Game) (hd : dealer < 4)
    (hf : (g.players ((dealer + i) % 4)).folded = 0)
    (hc : g.current_bet < (g.players ((dealer + i) % 4)).chips) :
    ((simple_rand g).1 % 3 = 1 →
      int_range ((g.players ((dealer + i) % 4)).chips - g.current_bet) →
      int_range (g.pot + g.current_bet) →
      ((bet_turn_int dealer i g).players ((dealer + i) % 4)).chips =
        (g.players ((dealer + i) % 4)).chips - g.current_bet ∧
      (bet_turn_int dealer i g).pot = g.pot + g.current_bet ∧
      (bet_turn_int dealer i g).current_bet = g.current_bet ∧
      bet_turn_int dealer i g = bet_turn dealer i g) ∧
    ((simple_rand g).1 % 3 = 2 →
      int_range (g.current_bet + 10) →
      int_range ((g.players ((dealer + i) % 4)).chips - (g.current_bet + 10)) →
      int_range (g.pot + (g.current_bet + 10)) →
      (bet_turn_int dealer i g).current_bet = g.current_bet + 10 ∧
      ((bet_turn_int dealer i g).players ((dealer + i) % 4)).chips =
        (g.players ((dealer + i) % 4)).chips - (g.current_bet + 10) ∧
      (bet_turn_int dealer i g).pot = g.pot + (g.current_bet + 10) ∧
      bet_turn_int dealer i g = bet_turn dealer i g) ∧
    betting_round_int g0 dealer =
      bet_turn_int dealer 3 (bet_turn_int dealer 2 (bet_turn_int dealer 1
        (bet_turn_int dealer 0 { g0 with current_bet := 10 }))) ∧
    (∀ (j : Nat) (s : Game) (p : Nat), p ≠ (dealer + j) % 4 →
      (bet_turn_int dealer j s).players p = s.players p) ∧
    (dealer + 0) % 4 = dealer ∧
    (∀ j k, j < 4 → k < 4 → (dealer + j) % 4 = (dealer + k) % 4 → j = k) ∧
    (∀ p, p < 4 → ∃ j, j < 4 ∧ (dealer + j) % 4 = p) := by
  refine ⟨?_, ?_, betting_round_int_unrolled g0 dealer, ?_, by omega, by omega, ?_⟩
  · intro h h1 h2
    rw [bet_turn_int_call dealer i g hf hc h, bet_turn_call dealer i g hf hc h,
      int_wrap_eq _ h1, int_wrap_eq _ h2]
    simp
  · intro h h1 h2 h3
    rw [bet_turn_int_raise dealer i g hf hc h, bet_turn_raise dealer i g hf hc h,
      int_wrap_eq _ h1, int_wrap_eq _ h2, int_wrap_eq _ h3]
    simp
  · intro j s p hp
    exact bet_turn_int_frame dealer j s p hp
  · intro p hp
    refine ⟨(p + 4 - dealer) % 4, Nat.mod_lt _ (by norm_num), ?_⟩
    omega

theorem lcg_two : lcg 2 % 3 = 1 := by
  rw [lcg_eq]
  norm_num

theorem lcg_four : lcg 4 % 3 = 2 := by
  rw [lcg_eq]
  norm_num

theorem call_and_raise_witness :
    (((bet_turn_int 0 0 call_state).players ((0 + 0) % 4)).chips =
        (call_state.players ((0 + 0) % 4)).chips - call_state.current_bet ∧
      (bet_turn_int 0 0 call_state).pot = call_state.pot + call_state.current_bet ∧
      (bet_turn_int 0 0 call_state).current_bet = call_state.current_bet ∧
      bet_turn_int 0 0 call_state = bet_turn 0 0 call_state) ∧
    ((bet_turn_int 0 0 raise_state).current_bet = raise_state.current_bet + 10 ∧
      ((bet_turn_int 0 0 raise_state).players ((0 + 0) % 4)).chips =
        (raise_state.players ((0 + 0) % 4)).chips - (raise_state.current_bet + 10) ∧
      (bet_turn_int 0 0 raise_state).pot = raise_state.pot + (raise_state.current_bet + 10) ∧
      bet_turn_int 0 0 raise_state = bet_turn 0 0 raise_state) :=
  ⟨(call_and_raise 0 0 call_state call_state (by decide) rfl (by decide)).1 lcg_two
      (by decide) (by decide),
   (call_and_raise 0 0 raise_state raise_state (by decide) rfl (by decide)).2.1 lcg_four
      (by decide) (by decide) (by decide)⟩

/-! ## C3: chips are conserved by the betting pass -/

theorem chips_sum_upd (ps : Nat → Player) (p : Nat) (hp : p < 4) (pl : Player) :
    chips_sum (upd ps p pl) = chips_sum ps - (ps p).chips + pl.chips := by
  unfold chips_sum
  interval_cases p <;> simp [upd_apply] <;> ring

theorem seat_lt (dealer i : Nat) : (dealer + i) % 4 < 4 := Nat.mod_lt _ (by norm_num)

theorem bet_turn_total (dealer i : Nat) (g : Game) :
    (bet_turn dealer i g).pot + chips_sum (bet_turn dealer i g).players =
      g.pot + chips_sum g.players := by
  rcases bet_turn_cases dealer i g with h | ⟨hf, h⟩ | ⟨hf, hc, h⟩ | ⟨hf, hc, h⟩
  · rw [bet_turn_skip dealer i g h]
  · rw [bet_turn_fold dealer i g hf h]
    simp only []
    rw [chips_sum_upd _ _ (seat_lt dealer i)]
    ring
  · rw [bet_turn_call dealer i g hf hc h]
    simp only []
    rw [chips_sum_upd _ _ (seat_lt dealer i)]
    ring
  · rw [bet_turn_raise dealer i g hf hc h]
    simp only []
    rw [chips_sum_upd _ _ (seat_lt dealer i)]
    ring

theorem bet_turn_bet_mono (dealer i : Nat) (g : Game) :
    g.current_bet ≤ (bet_turn dealer i g).current_bet := by
  rcases bet_turn_cases dealer i g with h | ⟨hf, h⟩ | ⟨hf, hc, h⟩ | ⟨hf, hc, h⟩
  · rw [bet_turn_skip dealer i g h]
  · rw [bet_turn_fold dealer i g hf h]
  · rw [bet_turn_call dealer i g hf hc h]
  · rw [bet_turn_raise dealer i g hf hc h]
    simp only []
    omega

theorem bet_turn_pot_mono (dealer i : Nat) (g : Game) (hb : 0 ≤ g.current_bet) :
    g.pot ≤ (bet_turn dealer i g).pot := by
  rcases bet_turn_cases dealer i g with h | ⟨hf, h⟩ | ⟨hf, hc, h⟩ | ⟨hf, hc, h⟩
  · rw [bet_turn_skip dealer i g h]
  · rw [bet_turn_fold dealer i g hf h]
  · rw [bet_turn_call dealer i g hf hc h]
    simp only []
    omega
  · rw [bet_turn_raise dealer i g hf hc h]
    simp only []
    omega

theorem betting_pass_zero (g : Game) (dealer : Nat) :
    betting_pass g dealer 0 = { g with current_bet := 10 } := by
  rw [betting_pass, forLoop_zero]

theorem betting_pass_succ (g : Game) (dealer n : Nat) :
    betting_pass g dealer (n + 1) = bet_turn dealer n (betting_pass g dealer n) := by
  rw [betting_pass, forLoop_succ, ← betting_pass]

theorem betting_pass_four (g : Game) (dealer : Nat) :
    betting_pass g dealer 4 = betting_round g dealer := by
  rw [betting_pass, betting_round]

theorem betting_pass_bet (g : Game) (dealer n : Nat) :
    10 ≤ (betting_pass g dealer n).current_bet := by
  induction n with
  | zero => rw [betting_pass_zero]
  | succ m ih =>
    rw [betting_pass_succ]
    exact le_trans ih (bet_turn_bet_mono dealer m _)

theorem betting_pass_total (g : Game) (dealer n : Nat) :
    (betting_pass g dealer n).pot + chips_sum (betting_pass g dealer n).players =
      g.pot + chips_sum g.players := by
  induction n with
  | zero => rw [betting_pass_zero]
  | succ m ih => rw [betting_pass_succ, bet_turn_total, ih]

theorem betting_pass_pot_mono (g : Game) (dealer n : Nat) :
    (betting_pass g dealer n).pot ≤ (betting_pass g dealer (n + 1)).pot := by
  rw [betting_pass_succ]
  exact bet_turn_pot_mono dealer n _ (le_trans (by norm_num) (betting_pass_bet g dealer n))

theorem betting_pass_pot_ge (g : Game) (dealer n : Nat) :
    g.pot ≤ (betting_pass g dealer n).pot := by
  induction n with
  | zero => rw [betting_pass_zero]
  | succ m ih => exact le_trans ih (betting_pass_pot_mono g dealer m)

/-! ## The betting pass stays inside the range of `int` -/

/-- What one betting turn can do to the pot, the bet and a player's chips. -/
theorem bet_turn_steps (dealer i : Nat) (g : Game) :
    ((bet_turn dealer i g).pot = g.pot ∨ (bet_turn dealer i g).pot = g.pot + g.current_bet ∨
      (bet_turn dealer i g).pot = g.pot + (g.current_bet + 10)) ∧
    ((bet_turn dealer i g).current_bet = g.current_bet ∨
      (bet_turn dealer i g).current_bet = g.current_bet + 10) ∧
    ∀ p, ((bet_turn dealer i g).players p).chips = (g.players p).chips ∨
      ((bet_turn dealer i g).players p).chips = (g.players p).chips - g.current_bet ∨
      ((bet_turn dealer i g).players p).chips = (g.players p).chips - (g.current_bet + 10) := by
  rcases bet_turn_cases dealer i g with h | ⟨hf, h⟩ | ⟨hf, hc, h⟩ | ⟨hf, hc, h⟩
  · rw [bet_turn_skip dealer i g h]
    exact ⟨Or.inl rfl, Or.inl rfl, fun p => Or.inl rfl⟩
  · rw [bet_turn_fold dealer i g hf h]
    refine ⟨Or.inl rfl, Or.inl rfl, fun p => Or.inl ?_⟩
    simp only [upd_apply]
    split
    · rename_i hp
      rw [hp]
    · rfl
  · rw [bet_turn_call dealer i g hf hc h]
    refine ⟨Or.inr (Or.inl rfl), Or.inl rfl, fun p => ?_⟩
    simp only [upd_apply]
    split
    · rename_i hp
      rw [hp]
      exact Or.inr (Or.inl rfl)
    · exact Or.inl rfl
  · rw [bet_turn_raise dealer i g hf hc h]
    refine ⟨Or.inr (Or.inr rfl), Or.inr rfl, fun p => ?_⟩
    simp only [upd_apply]
    split
    · rename_i hp
      rw [hp]
      exact Or.inr (Or.inr rfl)
    · exact Or.inl rfl

/-- After `n <= 4` turns of the betting pass the bet is between 10 and
`10 + 10 n`, the pot has grown by at most `50 n` and no player has lost more
than `50 n` chips. -/
theorem betting_pass_bounds (g : Game) (dealer n : Nat) (hn : n ≤ 4) :
    10 ≤ (betting_pass g dealer n).current_bet ∧
    (betting_pass g dealer n).current_bet ≤ 10 + 10 * (n : Int) ∧
    g.pot ≤ (betting_pass g dealer n).pot ∧
    (betting_pass g dealer n).pot ≤ g.pot + 50 * (n : Int) ∧
    ∀ p, (g.players p).chips - 50 * (n : Int) ≤ ((betting_pass g dealer n).players p).chips ∧
      ((betting_pass g dealer n).players p).chips ≤ (g.players p).chips := by
  induction n with
  | zero =>
    rw [betting_pass_zero]
    simp
  | succ m ih =>
    obtain ⟨b1, b2, p1, p2, c⟩ := ih (by omega)
    obtain ⟨s1, s2, s3⟩ := bet_turn_steps dealer m (betting_pass g dealer m)
    rw [betting_pass_succ]
    have hm : (m : Int) ≤ 3 := by omega
    push_cast
    refine ⟨by omega, by omega, by omega, by omega, fun p => ?_⟩
    have cp := c p
    have sp := s3 p
    constructor <;> omega

theorem betting_pass_int_zero (g : Game) (dealer : Nat) :
    betting_pass_int g dealer 0 = { g with current_bet := 10 } := by
  rw [betting_pass_int, forLoop_zero]

theorem betting_pass_int_succ (g : Game) (dealer n : Nat) :
    betting_pass_int g dealer (n + 1) = bet_turn_int dealer n (betting_pass_int g dealer n) := by
  rw [betting_pass_int, forLoop_succ, ← betting_pass_int]

theorem betting_pass_int_four (g : Game) (dealer : Nat) :
    betting_pass_int g dealer 4 = betting_round_int g dealer := by
  rw [betting_pass_int, betting_round_int]

/-- From a state with small pot and chips no turn of the betting pass leaves
the range of `int`: the 32-bit pass is the pass computed with exact
integers. -/
theorem betting_pass_int_eq (g : Game) (dealer n : Nat) (hn : n ≤ 4) (h : money_small g) :
    betting_pass_int g dealer n = betting_pass g dealer n := by
  induction n with
  | zero => rw [betting_pass_int_zero, betting_pass_zero]
  | succ m ih =>
    rw [betting_pass_int_succ, betting_pass_succ, ih (by omega)]
    obtain ⟨b1, b2, p1, p2, c⟩ := betting_pass_bounds g dealer m (by omega)
    obtain ⟨hp, hc⟩ := h
    have hs := hc _ (seat_lt dealer m)
    have cs := c ((dealer + m) % 4)
    have hm : (m : Int) ≤ 3 := by omega
    unfold small at hp hs
    apply bet_turn_int_eq <;> unfold int_range <;> omega

theorem betting_round_int_eq (g : Game) (dealer : Nat) (h : money_small g) :
    betting_round_int g dealer = betting_round g dealer := by
  rw [← betting_pass_int_four, ← betting_pass_four, betting_pass_int_eq g dealer 4 (le_refl 4) h]

/-- C3, counterexample: in `full_pot_state` every field is a value of `int`
(pot 2147483640, bet 10, 100 chips each).  With dealer 0 seat 0 raises to 20
and the three other seats call 20, 80 chips in all, and the first `pot += 20`
leaves the range of `int`: the 32-bit pot after the pass is -2147483576, so
the pot has decreased and pot plus chips is not what it was before the
pass. -/
theorem betting_round_wraps_pot :
    int_range full_pot_state.pot ∧ int_range full_pot_state.current_bet ∧
    int_range (full_pot_state.players 0).chips ∧ int_range (full_pot_state.players 1).chips ∧
    int_range (full_pot_state.players 2).chips ∧ int_range (full_pot_state.players 3).chips ∧
    chips_sum full_pot_state.players - chips_sum (betting_round_int full_pot_state 0).players = 80 ∧
    (betting_round_int full_pot_state 0).pot = -2147483576 ∧
    (betting_round_int full_pot_state 0).pot < full_pot_state.pot ∧
    (betting_pass_int full_pot_state 0 1).pot < (betting_pass_int full_pot_state 0 0).pot ∧
    (betting_round_int full_pot_state 0).pot +
        chips_sum (betting_round_int full_pot_state 0).players ≠
      full_pot_state.pot + chips_sum full_pot_state.players := by
  decide!

/-- C3, amended: for every state whose pot and chips lie between `-2^29` and
`2^29` and every dealer, `betting_round` on 32-bit `int`s conserves chips: pot
plus the four players' chips is the same after the pass as before; the pot
never decreases from one turn of the pass to the next, and over each turn (and
over the whole pass) it grows by exactly the amount by which the players'
chips drop.  No step of the pass leaves the range of `int`: the pass is the
one computed with exact integers. -/
theorem betting_round_conserves (g : Game) (dealer : Nat) (hm : money_small g) :
    (betting_round_int g dealer).pot + chips_sum (betting_round_int g dealer).players =
      g.pot + chips_sum g.players ∧
    (betting_pass_int g dealer 0).pot = g.pot ∧
    (betting_pass_int g dealer 0).players = g.players ∧
    betting_pass_int g dealer 4 = betting_round_int g dealer ∧
    (∀ n, n < 4 →
      betting_pass_int g dealer (n + 1) =
        bet_turn_int dealer n (betting_pass_int g dealer n) ∧
      (betting_pass_int g dealer n).pot ≤ (betting_pass_int g dealer (n + 1)).pot ∧
      (betting_pass_int g dealer (n + 1)).pot - (betting_pass_int g dealer n).pot =
        chips_sum (betting_pass_int g dealer n).players -
          chips_sum (betting_pass_int g dealer (n + 1)).players) ∧
    g.pot ≤ (betting_round_int g dealer).pot ∧
    (betting_round_int g dealer).pot - g.pot =
      chips_sum g.players - chips_sum (betting_round_int g dealer).players ∧
    betting_round_int g dealer = betting_round g dealer := by
  have h4 := betting_pass_total g dealer 4
  have hge := betting_pass_pot_ge g dealer 4
  rw [betting_pass_four] at h4 hge
  rw [betting_round_int_eq g dealer hm]
  refine ⟨h4, by rw [betting_pass_int_zero], by rw [betting_pass_int_zero],
    by rw [betting_pass_int_four, betting_round_int_eq g dealer hm], ?_, hge, by omega, rfl⟩
  intro n hn
  have h1 := betting_pass_total g dealer n
  have h2 := betting_pass_total g dealer (n + 1)
  refine ⟨betting_pass_int_succ g dealer n, ?_⟩
  rw [betting_pass_int_eq g dealer (n + 1) (by omega) hm,
    betting_pass_int_eq g dealer n (by omega) hm]
  exact ⟨betting_pass_pot_mono g dealer n, by omega⟩

theorem betting_round_conserves_witness :
    money_small raise_state ∧
    (betting_round_int raise_state 0).pot + chips_sum (betting_round_int raise_state 0).players =
      raise_state.pot + chips_sum raise_state.players ∧
    raise_state.pot ≤ (betting_round_int raise_state 0).pot :=
  ⟨⟨by decide, fun _ _ => (by decide : small 100)⟩,
   (betting_round_conserves raise_state 0 ⟨by decide, fun _ _ => (by decide : small 100)⟩).1,
   (betting_round_conserves raise_state 0
      ⟨by decide, fun _ _ => (by decide : small 100)⟩).2.2.2.2.2.1⟩

/-! ## C2: chips and the betting pass -/

/-- C2, counterexample: all four players hold non-negative chips (15, 100, 100,
100), the dealer (seat 0) is not forced to fold at the opening bet of 10 and
draws Raise, pays the post-raise bet of 20 and ends the pass with -5 chips. -/
theorem betting_round_overdraws :
    0 ≤ (odd_chips_state.players 0).chips ∧ 0 ≤ (odd_chips_state.players 1).chips ∧
    0 ≤ (odd_chips_state.players 2).chips ∧ 0 ≤ (odd_chips_state.players 3).chips ∧
    ((betting_round odd_chips_state 0).players 0).chips = -5 := by
  refine ⟨by decide, by decide, by decide, by decide, ?_⟩
  rw [betting_round_unrolled, bet_turn_frame 0 3 _ 0 (by decide),
    bet_turn_frame 0 2 _ 0 (by decide), bet_turn_frame 0 1 _ 0 (by decide),
    bet_turn_raise 0 0 _ rfl (by decide) lcg_four]
  decide

theorem bet_turn_tens (dealer i : Nat) (g : Game) (hb : 10 ∣ g.current_bet)
    (h : ∀ p, p < 4 → 0 ≤ (g.players p).chips ∧ 10 ∣ (g.players p).chips) :
    10 ∣ (bet_turn dealer i g).current_bet ∧
    ∀ p, p < 4 →
      0 ≤ ((bet_turn dealer i g).players p).chips ∧
      10 ∣ ((bet_turn dealer i g).players p).chips := by
  have hs := h _ (seat_lt dealer i)
  rcases bet_turn_cases dealer i g with h1 | ⟨hf, h1⟩ | ⟨hf, hc, h1⟩ | ⟨hf, hc, h1⟩
  · rw [bet_turn_skip dealer i g h1]
    exact ⟨hb, h⟩
  · rw [bet_turn_fold dealer i g hf h1]
    refine ⟨hb, ?_⟩
    intro p hp
    simp only [upd_apply]
    by_cases hps : p = (dealer + i) % 4
    · rw [if_pos hps]
      exact hs
    · rw [if_neg hps]
      exact h p hp
  · rw [bet_turn_call dealer i g hf hc h1]
    refine ⟨hb, ?_⟩
    intro p hp
    simp only [upd_apply]
    by_cases hps : p = (dealer + i) % 4
    · rw [if_pos hps]
      simp only []
      omega
    · rw [if_neg hps]
      exact h p hp
  · rw [bet_turn_raise dealer i g hf hc h1]
    refine ⟨by simp only []; omega, ?_⟩
    intro p hp
    simp only [upd_apply]
    by_cases hps : p = (dealer + i) % 4
    · rw [if_pos hps]
      simp only []
      omega
    · rw [if_neg hps]
      exact h p hp

theorem betting_pass_tens (g : Game) (dealer n : Nat)
    (h : ∀ p, p < 4 → 0 ≤ (g.players p).chips ∧ 10 ∣ (g.players p).chips) :
    10 ∣ (betting_pass g dealer n).current_bet ∧
    ∀ p, p < 4 →
      0 ≤ ((betting_pass g dealer n).players p).chips ∧
      10 ∣ ((betting_pass g dealer n).players p).chips := by
  induction n with
  | zero =>
    rw [betting_pass_zero]
    exact ⟨by simp only []; norm_num, h⟩
  | succ m ih =>
    rw [betting_pass_succ]
    exact bet_turn_tens dealer m _ ih.1 ih.2

/-- C2, amended: for every state in which every player's chips are a
non-negative multiple of 10, and every dealer, after `betting_round` every
player's chips are again a non-negative multiple of 10, whatever the
generator returns. -/
theorem betting_round_nonneg_of_tens (g : Game) (dealer : Nat)
    (h : ∀ p, p < 4 → 0 ≤ (g.players p).chips ∧ 10 ∣ (g.players p).chips) :
    ∀ p, p < 4 →
      0 ≤ ((betting_round g dealer).players p).chips ∧
      10 ∣ ((betting_round g dealer).players p).chips := by
  rw [← betting_pass_four]
  exact (betting_pass_tens g dealer 4 h).2

theorem betting_round_nonneg_of_tens_witness :
    0 ≤ ((betting_round raise_state 0).players 0).chips ∧
    10 ∣ ((betting_round raise_state 0).players 0).chips :=
  betting_round_nonneg_of_tens raise_state 0
    (fun _ _ => ⟨show (0 : Int) ≤ 100 by decide, show (10 : Int) ∣ 100 by decide⟩)
    0 (by decide)

/-! ## The play loop: the two outcomes of one turn -/

theorem play_turn_idle (dealer : Nat) (trump_suit : Int) (i : Nat) (s : RoundState)
    (h : ¬ acts s.g ((dealer + i) % 4)) : play_turn dealer trump_suit i s = s := by
  unfold play_turn
  unfold acts at h
  by_cases hf : (s.g.players ((dealer + i) % 4)).folded = 0
  · have hs : ¬ (s.g.players ((dealer + i) % 4)).hand_size > 0 := fun hgt => h ⟨hf, hgt⟩
    simp only [hf, ne_eq, not_true_eq_false, if_false, hs]
  · simp only [hf, ne_eq, not_false_eq_true, if_true]

theorem play_turn_act (dealer : Nat) (trump_suit : Int) (i : Nat) (s : RoundState)
    (h : acts s.g ((dealer + i) % 4)) :
    play_turn dealer trump_suit i s =
      { g := acted_game s.g ((dealer + i) % 4),
        played := upd s.played ((dealer + i) % 4) ((s.g.players ((dealer + i) % 4)).hand 0),
        winning_player :=
          if card_value ((s.g.players ((dealer + i) % 4)).hand 0)
              (upd s.played ((dealer + i) % 4) ((s.g.players ((dealer + i) % 4)).hand 0) dealer)
              trump_suit > s.winning_value
          then (dealer + i) % 4 else s.winning_player,
        winning_value :=
          if card_value ((s.g.players ((dealer + i) % 4)).hand 0)
              (upd s.played ((dealer + i) % 4) ((s.g.players ((dealer + i) % 4)).hand 0) dealer)
              trump_suit > s.winning_value
          then card_value ((s.g.players ((dealer + i) % 4)).hand 0)
              (upd s.played ((dealer + i) % 4) ((s.g.players ((dealer + i) % 4)).hand 0) dealer)
              trump_suit
          else s.winning_value } := by
  unfold play_turn acted_game
  obtain ⟨hf, hs⟩ := h
  have hs2 : (s.g.players ((dealer + i) % 4)).hand_size > 0 := hs
  simp only [hf, ne_eq, not_true_eq_false, if_false, hs2, if_true, upd_same]
  split <;> rfl

/-! ## The play loop moves no chips -/

/-- A loop whose passes keep every player's chips and folded flag keeps them. -/
theorem forLoop_keeps_money (f : Nat → (Nat → Player) → Nat → Player)
    (hf : ∀ i q p, (f i q p).chips = (q p).chips ∧ (f i q p).folded = (q p).folded)
    (n : Nat) (ps : Nat → Player) (p : Nat) :
    (forLoop f n ps p).chips = (ps p).chips ∧ (forLoop f n ps p).folded = (ps p).folded := by
  induction n with
  | zero => exact ⟨rfl, rfl⟩
  | succ m ih =>
    rw [forLoop_succ]
    exact ⟨(hf m _ p).1.trans ih.1, (hf m _ p).2.trans ih.2⟩

theorem upd_keeps_money (ps : Nat → Player) (k : Nat) (pl : Player)
    (hc : pl.chips = (ps k).chips) (hfo : pl.folded = (ps k).folded) (p : Nat) :
    (upd ps k pl p).chips = (ps p).chips ∧ (upd ps k pl p).folded = (ps p).folded := by
  rw [upd_apply]
  by_cases h : p = k
  · subst h
    simp [hc, hfo]
  · simp [h]

theorem set_hand_slot_money (ps : Nat → Player) (k i : Nat) (c : Card) (p : Nat) :
    (set_hand_slot ps k i c p).chips = (ps p).chips ∧
    (set_hand_slot ps k i c p).folded = (ps p).folded :=
  upd_keeps_money ps k { ps k with hand := upd (ps k).hand i c } rfl rfl p

theorem set_hand_size_money (ps : Nat → Player) (k : Nat) (n : Int) (p : Nat) :
    (set_hand_size ps k n p).chips = (ps p).chips ∧
    (set_hand_size ps k n p).folded = (ps p).folded :=
  upd_keeps_money ps k { ps k with hand_size := n } rfl rfl p

theorem swap_hands_money (ps : Nat → Player) (player : Nat) (temp0 : Nat → Card) (p : Nat) :
    (swap_hands ps player temp0 p).chips = (ps p).chips ∧
    (swap_hands ps player temp0 p).folded = (ps p).folded := by
  unfold swap_hands
  have h1 := set_hand_size_money ps player (ps (player + 1)).hand_size p
  have h2 := fun n q => forLoop_keeps_money
    (fun i q => set_hand_slot q player i ((q (player + 1)).hand i))
    (fun i q p => set_hand_slot_money q player i _ p) n q p
  have h4 := fun (t : Nat → Card) n q => forLoop_keeps_money
    (fun i q => set_hand_slot q (player + 1) i (t i))
    (fun i q p => set_hand_slot_money q (player + 1) i _ p) n q p
  refine ⟨((h4 _ _ _).1.trans ?_), ((h4 _ _ _).2.trans ?_)⟩
  · exact ((set_hand_size_money _ (player + 1) _ p).1.trans ((h2 _ _).1.trans h1.1))
  · exact ((set_hand_size_money _ (player + 1) _ p).2.trans ((h2 _ _).2.trans h1.2))

theorem activate_special_money (g : Game) (player : Nat) (card : Card) :
    (activate_special g player card).pot = g.pot ∧
    (activate_special g player card).current_bet = g.current_bet ∧
    ∀ p, ((activate_special g player card).players p).chips = (g.players p).chips ∧
      ((activate_special g player card).players p).folded = (g.players p).folded := by
  unfold activate_special
  rw [get_trump_suit_state, simple_rand_state]
  split
  · exact ⟨rfl, rfl, fun p => ⟨rfl, rfl⟩⟩
  · split
    · split
      · exact ⟨rfl, rfl, fun p => swap_hands_money g.players player _ p⟩
      · exact ⟨rfl, rfl, fun p => ⟨rfl, rfl⟩⟩
    · split
      · exact ⟨rfl, rfl, fun p => ⟨rfl, rfl⟩⟩
      · exact ⟨rfl, rfl, fun p => ⟨rfl, rfl⟩⟩

theorem remove_front_money (g : Game) (current : Nat) :
    (remove_front g current).pot = g.pot ∧
    (remove_front g current).current_bet = g.current_bet ∧
    ∀ p, ((remove_front g current).players p).chips = (g.players p).chips ∧
      ((remove_front g current).players p).folded = (g.players p).folded :=
  ⟨rfl, rfl, fun p => upd_keeps_money g.players current
    { g.players current with
        hand := forLoop (fun j h => upd h j (h (j + 1)))
                  ((g.players current).hand_size - 1).toNat (g.players current).hand,
        hand_size := (g.players current).hand_size - 1 } rfl rfl p⟩

theorem acted_game_money (g : Game) (current : Nat) :
    (acted_game g current).pot = g.pot ∧
    (acted_game g current).current_bet = g.current_bet ∧
    ∀ p, ((acted_game g current).players p).chips = (g.players p).chips ∧
      ((acted_game g current).players p).folded = (g.players p).folded := by
  unfold acted_game
  obtain ⟨h1, h2, h3⟩ := remove_front_money
    (if ((g.players current).hand 0).special > 0
     then activate_special g current ((g.players current).hand 0) else g) current
  split
  · rename_i hsp
    simp only [hsp, if_true] at h1 h2 h3
    obtain ⟨a1, a2, a3⟩ := activate_special_money g current ((g.players current).hand 0)
    exact ⟨h1.trans a1, h2.trans a2, fun p => ⟨(h3 p).1.trans (a3 p).1, (h3 p).2.trans (a3 p).2⟩⟩
  · rename_i hsp
    simp only [hsp, if_false] at h1 h2 h3
    exact ⟨h1, h2, h3⟩

theorem play_turn_money (dealer : Nat) (trump_suit : Int) (i : Nat) (s : RoundState) :
    (play_turn dealer trump_suit i s).g.pot = s.g.pot ∧
    (play_turn dealer trump_suit i s).g.current_bet = s.g.current_bet ∧
    ∀ p, ((play_turn dealer trump_suit i s).g.players p).chips = (s.g.players p).chips ∧
      ((play_turn dealer trump_suit i s).g.players p).folded = (s.g.players p).folded := by
  by_cases h : acts s.g ((dealer + i) % 4)
  · rw [play_turn_act dealer trump_suit i s h]
    exact acted_game_money s.g _
  · rw [play_turn_idle dealer trump_suit i s h]
    exact ⟨rfl, rfl, fun p => ⟨rfl, rfl⟩⟩

theorem play_turn_winner_lt (dealer : Nat) (trump_suit : Int) (i : Nat) (s : RoundState)
    (h : s.winning_player < 4) : (play_turn dealer trump_suit i s).winning_player < 4 := by
  by_cases ha : acts s.g ((dealer + i) % 4)
  · rw [play_turn_act dealer trump_suit i s ha]
    simp only []
    split
    · exact seat_lt dealer i
    · exact h
  · rw [play_turn_idle dealer trump_suit i s ha]
    exact h

/-! ## C4: the payout -/

theorem play_loop_money (dealer : Nat) (trump_suit : Int) (n : Nat) (s : RoundState) :
    (forLoop (play_turn dealer trump_suit) n s).g.pot = s.g.pot ∧
    (forLoop (play_turn dealer trump_suit) n s).g.current_bet = s.g.current_bet ∧
    (∀ p, ((forLoop (play_turn dealer trump_suit) n s).g.players p).chips = (s.g.players p).chips ∧
      ((forLoop (play_turn dealer trump_suit) n s).g.players p).folded =
        (s.g.players p).folded) ∧
    (s.winning_player < 4 → (forLoop (play_turn dealer trump_suit) n s).winning_player < 4) := by
  induction n with
  | zero => exact ⟨rfl, rfl, fun p => ⟨rfl, rfl⟩, fun h => h⟩
  | succ m ih =>
    rw [forLoop_succ]
    obtain ⟨i1, i2, i3, i4⟩ := ih
    obtain ⟨t1, t2, t3⟩ := play_turn_money dealer trump_suit m
      (forLoop (play_turn dealer trump_suit) m s)
    exact ⟨t1.trans i1, t2.trans i2,
      fun p => ⟨(t3 p).1.trans (i3 p).1, (t3 p).2.trans (i3 p).2⟩,
      fun h => play_turn_winner_lt dealer trump_suit m _ (i4 h)⟩

theorem reset_loop_chips (n : Nat) (ps : Nat → Player) (p : Nat) :
    (forLoop (fun i q => upd q i { q i with folded := 0 }) n ps p).chips = (ps p).chips := by
  induction n with
  | zero => rfl
  | succ m ih =>
    rw [forLoop_succ, upd_apply]
    by_cases h : p = m
    · subst h
      simpa using ih
    · simpa [h] using ih

theorem resolve_money (s : RoundState) :
    (resolve s).pot = 0 ∧ (resolve s).current_bet = 0 ∧
    ((resolve s).players s.winning_player).chips =
      (s.g.players s.winning_player).chips + s.g.pot ∧
    ∀ p, p ≠ s.winning_player → ((resolve s).players p).chips = (s.g.players p).chips := by
  unfold resolve
  refine ⟨rfl, rfl, ?_, ?_⟩
  · simp only []
    rw [reset_loop_chips, upd_same]
  · intro p hp
    simp only []
    rw [reset_loop_chips, upd_other _ _ hp]

theorem after_betting_total (g : Game) (dealer : Nat) :
    (after_betting g dealer).pot + chips_sum (after_betting g dealer).players =
      g.pot + chips_sum g.players := by
  rw [after_betting, ← betting_pass_four, betting_pass_total, get_trump_suit_state,
    simple_rand_pot, simple_rand_players]

theorem trump_draw_money_small (g : Game) (h : money_small g) :
    money_small (get_trump_suit g).2 := by
  rw [get_trump_suit_state, simple_rand_state]
  exact h

theorem after_betting_int_eq (g : Game) (dealer : Nat) (h : money_small g) :
    after_betting_int g dealer = after_betting g dealer := by
  rw [after_betting_int, after_betting, betting_round_int_eq _ dealer (trump_draw_money_small g h)]

theorem play_phase_int_eq (g : Game) (dealer : Nat) (played0 : Nat → Card) (h : money_small g) :
    play_phase_int g dealer played0 = play_phase g dealer played0 := by
  rw [play_phase_int, play_phase, play_pass, after_betting_int_eq g dealer h]

/-- After the betting pass of a round the pot has grown by at most 200 and no
player has lost more than 200 chips. -/
theorem after_betting_bounds (g : Game) (dealer : Nat) :
    g.pot ≤ (after_betting g dealer).pot ∧ (after_betting g dealer).pot ≤ g.pot + 200 ∧
    ∀ p, (g.players p).chips - 200 ≤ ((after_betting g dealer).players p).chips ∧
      ((after_betting g dealer).players p).chips ≤ (g.players p).chips := by
  obtain ⟨_, _, p1, p2, c⟩ := betting_pass_bounds (get_trump_suit g).2 dealer 4 (le_refl 4)
  rw [betting_pass_four, get_trump_suit_state, simple_rand_state] at p1 p2 c
  rw [after_betting, get_trump_suit_state, simple_rand_state]
  exact ⟨p1, p2, c⟩

theorem resolve_int_eq (s : RoundState)
    (h : int_range ((s.g.players s.winning_player).chips + s.g.pot)) :
    resolve_int s = resolve s := by
  unfold resolve_int resolve
  simp only [int_wrap_eq _ h]

/-- What `play_round` does to pot, bet and chips, computed with exact
integers. -/
theorem play_round_money (g : Game) (dealer : Nat) (played0 : Nat → Card) (hd : dealer < 4) :
    (play_round g dealer played0).2.pot = 0 ∧
    (play_round g dealer played0).2.current_bet = 0 ∧
    (play_round g dealer played0).1 < 4 ∧
    ((play_round g dealer played0).2.players (play_round g dealer played0).1).chips =
      ((after_betting g dealer).players (play_round g dealer played0).1).chips +
        (after_betting g dealer).pot ∧
    (∀ p, p ≠ (play_round g dealer played0).1 →
      ((play_round g dealer played0).2.players p).chips =
        ((after_betting g dealer).players p).chips) ∧
    (∀ p, ((play_phase g dealer played0).g.players p).chips =
      ((after_betting g dealer).players p).chips) ∧
    (play_phase g dealer played0).g.pot = (after_betting g dealer).pot ∧
    (after_betting g dealer).pot =
      g.pot + (chips_sum g.players - chips_sum (after_betting g dealer).players) := by
  obtain ⟨l1, _, l3, l4⟩ := play_loop_money dealer (get_trump_suit g).1 4
    { g := after_betting g dealer, played := played0, winning_player := dealer,
      winning_value := -1 }
  change (play_phase g dealer played0).g.pot = _ at l1
  change ∀ p, ((play_phase g dealer played0).g.players p).chips = _ ∧
    ((play_phase g dealer played0).g.players p).folded = _ at l3
  change dealer < 4 → (play_phase g dealer played0).winning_player < 4 at l4
  obtain ⟨r1, r2, r3, r4⟩ := resolve_money (play_phase g dealer played0)
  have ht := after_betting_total g dealer
  refine ⟨r1, r2, l4 hd, ?_, ?_, fun p => (l3 p).1, l1, by omega⟩
  · show ((resolve (play_phase g dealer played0)).players
      (play_phase g dealer played0).winning_player).chips = _
    rw [r3, (l3 _).1, l1]
    rfl
  · intro p hp
    show ((resolve (play_phase g dealer played0)).players p).chips = _
    rw [r4 p hp]
    exact (l3 p).1

/-- From a state with small pot and chips the payout stays inside the range
of `int`: the 32-bit round is the round computed with exact integers. -/
theorem play_round_int_eq (g : Game) (dealer : Nat) (played0 : Nat → Card) (hd : dealer < 4)
    (h : money_small g) : play_round_int g dealer played0 = play_round g dealer played0 := by
  obtain ⟨_, _, hw, _, _, hc, hp, _⟩ := play_round_money g dealer played0 hd
  obtain ⟨b1, b2, b3⟩ := after_betting_bounds g dealer
  have hw2 : (play_phase g dealer played0).winning_player < 4 := hw
  have hs := h.2 _ hw2
  have hpot := h.1
  have b4 := b3 (play_phase g dealer played0).winning_player
  have hr : int_range (((play_phase g dealer played0).g.players
      (play_phase g dealer played0).winning_player).chips + (play_phase g dealer played0).g.pot) := by
    rw [hc, hp]
    unfold small at hs hpot
    unfold int_range
    omega
  rw [play_round_int, play_round, play_phase_int_eq g dealer played0 h, resolve_int_eq _ hr]

/-- C4, counterexample: in `rich_pot_state` every field is a value of `int`
(pot 2147483540, 100 chips and five cards each).  With dealer 0 every seat
calls 10, so right after the betting pass seat 1 holds 90 chips and the pot is
2147483580; seat 1 wins the round, and `chips += pot` leaves the range of
`int`: the winner ends with -2147483626 chips, not with 90 + 2147483580. -/
theorem payout_wraps_chips :
    int_range rich_pot_state.pot ∧
    int_range (rich_pot_state.players 0).chips ∧ int_range (rich_pot_state.players 1).chips ∧
    int_range (rich_pot_state.players 2).chips ∧ int_range (rich_pot_state.players 3).chips ∧
    (rich_pot_state.players 0).hand_size = 5 ∧ (rich_pot_state.players 1).hand_size = 5 ∧
    (rich_pot_state.players 2).hand_size = 5 ∧ (rich_pot_state.players 3).hand_size = 5 ∧
    (play_round_int rich_pot_state 0 stale_played).1 = 1 ∧
    ((after_betting_int rich_pot_state 0).players 1).chips = 90 ∧
    (after_betting_int rich_pot_state 0).pot = 2147483580 ∧
    ((play_round_int rich_pot_state 0 stale_played).2.players 1).chips = -2147483626 ∧
    ((play_round_int rich_pot_state 0 stale_played).2.players
        (play_round_int rich_pot_state 0 stale_played).1).chips ≠
      ((after_betting_int rich_pot_state 0).players
        (play_round_int rich_pot_state 0 stale_played).1).chips +
        (after_betting_int rich_pot_state 0).pot := by
  decide!

/-- C4, amended: for every state whose pot and chips lie between `-2^29` and
`2^29` and whose hand sizes are between 0 and 5, and every dealer in 0..3,
after `play_round` on 32-bit `int`s the pot and `current_bet` are 0, the
returned seat is one of the four seats and its chips are its chips right after
the betting pass plus the whole pot at that point, which is the pot at entry
plus everything the players paid in the betting pass; every other seat's chips
are what they were right after the betting pass (the play loop moves no chips
and leaves the pot alone).  No step leaves the range of `int`: the round is
the one computed with exact integers. -/
theorem play_round_payout (g : Game) (dealer : Nat) (played0 : Nat → Card) (hd : dealer < 4)
    (hm : money_small g) (_hsize : hands_in_bounds g) :
    (play_round_int g dealer played0).2.pot = 0 ∧
    (play_round_int g dealer played0).2.current_bet = 0 ∧
    (play_round_int g dealer played0).1 < 4 ∧
    ((play_round_int g dealer played0).2.players (play_round_int g dealer played0).1).chips =
      ((after_betting_int g dealer).players (play_round_int g dealer played0).1).chips +
        (after_betting_int g dealer).pot ∧
    (∀ p, p ≠ (play_round_int g dealer played0).1 →
      ((play_round_int g dealer played0).2.players p).chips =
        ((after_betting_int g dealer).players p).chips) ∧
    (∀ p, ((play_phase_int g dealer played0).g.players p).chips =
      ((after_betting_int g dealer).players p).chips) ∧
    (play_phase_int g dealer played0).g.pot = (after_betting_int g dealer).pot ∧
    (after_betting_int g dealer).pot =
      g.pot + (chips_sum g.players - chips_sum (after_betting_int g dealer).players) ∧
    play_round_int g dealer played0 = play_round g dealer played0 := by
  rw [play_round_int_eq g dealer played0 hd hm, after_betting_int_eq g dealer hm,
    play_phase_int_eq g dealer played0 hm]
  obtain ⟨h1, h2, h3, h4, h5, h6, h7, h8⟩ := play_round_money g dealer played0 hd
  exact ⟨h1, h2, h3, h4, h5, h6, h7, h8, rfl⟩

theorem play_round_payout_witness :
    money_small call_state ∧ hands_in_bounds call_state ∧
    (play_round_int call_state 0 (fun _ => default)).2.pot = 0 ∧
    (play_round_int call_state 0 (fun _ => default)).2.current_bet = 0 ∧
    (play_round_int call_state 0 (fun _ => default)).1 < 4 :=
  ⟨⟨by decide, fun _ _ => (by decide : small 100)⟩,
   fun _ _ => ⟨(by decide : (0 : Int) ≤ 5), (by decide : (5 : Int) ≤ 5)⟩,
   (play_round_payout call_state 0 (fun _ => default) (by decide)
      ⟨by decide, fun _ _ => (by decide : small 100)⟩
      (fun _ _ => ⟨(by decide : (0 : Int) ≤ 5), (by decide : (5 : Int) ≤ 5)⟩)).1,
   (play_round_payout call_state 0 (fun _ => default) (by decide)
      ⟨by decide, fun _ _ => (by decide : small 100)⟩
      (fun _ _ => ⟨(by decide : (0 : Int) ≤ 5), (by decide : (5 : Int) ≤ 5)⟩)).2.1,
   (play_round_payout call_state 0 (fun _ => default) (by decide)
      ⟨by decide, fun _ _ => (by decide : small 100)⟩
      (fun _ _ => ⟨(by decide : (0 : Int) ≤ 5), (by decide : (5 : Int) ≤ 5)⟩)).2.2.1⟩

/-! ## C1: the round winner -/

/-- C1, failing input: from `lead_state` with dealer 0 the trump suit is 0 and
the dealer folds in the betting pass, so the dealer plays no card; seats 1, 2
and 3 act and play the 9 of diamonds, the 5 of clubs and the 3 of spades, whose
values by the rule of the specification are 8, 4 and 2.  `play_round` returns
seat 2, not seat 1: it reads the never written slot `played[0]`, finds a club
there and adds the follow-suit bonus to the 5 of clubs.  With another content
of that slot the same state gives seat 1. -/
theorem play_round_stale_lead :
    (get_trump_suit lead_state).1 = 0 ∧
    ¬ acts (play_pass lead_state 0 stale_played 0).g 0 ∧
    (acts (play_pass lead_state 0 stale_played 1).g 1 ∧
      ((play_pass lead_state 0 stale_played 1).g.players 1).hand 0 = built_card 21) ∧
    (acts (play_pass lead_state 0 stale_played 2).g 2 ∧
      ((play_pass lead_state 0 stale_played 2).g.players 2).hand 0 = built_card 30) ∧
    (acts (play_pass lead_state 0 stale_played 3).g 3 ∧
      ((play_pass lead_state 0 stale_played 3).g.players 3).hand 0 = built_card 41) ∧
    claimed_value 0 none (built_card 21) = 8 ∧
    claimed_value 0 none (built_card 30) = 4 ∧
    claimed_value 0 none (built_card 41) = 2 ∧
    (play_round lead_state 0 stale_played).1 = 2 ∧
    (play_round lead_state 0 (fun _ => built_card 0)).1 = 1 := by
  decide!

/-! ## The winner tracked by the play loop -/

theorem play_pass_zero (g : Game) (dealer : Nat) (played0 : Nat → Card) :
    play_pass g dealer played0 0 =
      { g := after_betting g dealer, played := played0, winning_player := dealer,
        winning_value := -1 } := by
  rw [play_pass, forLoop_zero]

theorem play_pass_succ (g : Game) (dealer : Nat) (played0 : Nat → Card) (n : Nat) :
    play_pass g dealer played0 (n + 1) =
      play_turn dealer (get_trump_suit g).1 n (play_pass g dealer played0 n) := by
  rw [play_pass, forLoop_succ, ← play_pass]

theorem card_value_nonneg (c ref : Card) (t : Int) (h : 0 ≤ c.rank) :
    0 ≤ card_value c ref t := by
  unfold card_value
  simp only []
  split_ifs <;> omega

theorem card_value_eq_claimed (c ref : Card) (t : Int) :
    card_value c ref t = claimed_value t (some ref) c := by
  unfold card_value claimed_value
  have key : (c.suit = ref.suit) = (ref.suit = c.suit) := propext eq_comm
  simp only [Option.map_some', Option.some.injEq, key]

theorem tracked_step (g : Game) (dealer : Nat) (played0 : Nat → Card) (n : Nat)
    (hd : dealer < 4) (hn : n < 4)
    (hpos : turn_acts g dealer played0 n → 0 ≤ turn_value g dealer played0 n)
    (h : Tracked g dealer played0 n) : Tracked g dealer played0 (n + 1) := by
  obtain ⟨hslot, hwin⟩ := h
  have hS := play_pass_succ g dealer played0 n
  by_cases ha : turn_acts g dealer played0 n
  · have hact : acts (play_pass g dealer played0 n).g ((dealer + n) % 4) := ha
    rw [play_turn_act _ _ _ _ hact] at hS
    have href : upd (play_pass g dealer played0 n).played ((dealer + n) % 4)
        (((play_pass g dealer played0 n).g.players ((dealer + n) % 4)).hand 0) dealer =
        lead_slot g dealer played0 := by
      by_cases h0 : n = 0
      · subst h0
        have hseat : (dealer + 0) % 4 = dealer := by omega
        rw [upd_apply, if_pos hseat.symm]
        unfold lead_slot
        rw [if_pos ha]
        rfl
      · have hne : dealer ≠ (dealer + n) % 4 := by omega
        rw [upd_other _ _ hne]
        exact hslot (by omega)
    have hv : card_value (((play_pass g dealer played0 n).g.players ((dealer + n) % 4)).hand 0)
        (lead_slot g dealer played0) (get_trump_suit g).1 = turn_value g dealer played0 n := rfl
    rw [href, hv] at hS
    have hp := hpos ha
    refine ⟨fun _ => ?_, ?_⟩
    · rw [hS]
      exact href
    · right
      rcases hwin with ⟨hnone, hwp, hwv⟩ | ⟨i, hi, hai, hwp, hwv, hmax⟩
      · have hgt : turn_value g dealer played0 n > (play_pass g dealer played0 n).winning_value := by
          rw [hwv]
          omega
        refine ⟨n, by omega, ha, ?_, ?_, ?_⟩
        · rw [hS]
          simp only [hgt, if_true]
        · rw [hS]
          simp only [hgt, if_true]
        · intro j hj haj
          have hjn : j = n := by
            by_contra hne
            exact hnone j (by omega) haj
          subst hjn
          exact ⟨le_refl _, fun _ => le_refl _⟩
      · by_cases hgt : turn_value g dealer played0 n > (play_pass g dealer played0 n).winning_value
        · refine ⟨n, by omega, ha, ?_, ?_, ?_⟩
          · rw [hS]
            simp only [hgt, if_true]
          · rw [hS]
            simp only [hgt, if_true]
          · intro j hj haj
            by_cases hjn : j = n
            · subst hjn
              exact ⟨le_refl _, fun _ => le_refl _⟩
            · have hm := hmax j (by omega) haj
              rw [hwv] at hgt
              exact ⟨by omega, fun e => by omega⟩
        · refine ⟨i, by omega, hai, ?_, ?_, ?_⟩
          · rw [hS]
            simp only [hgt, if_false]
            exact hwp
          · rw [hS]
            simp only [hgt, if_false]
            exact hwv
          · intro j hj haj
            by_cases hjn : j = n
            · subst hjn
              rw [hwv] at hgt
              exact ⟨by omega, fun _ => by omega⟩
            · exact hmax j (by omega) haj
  · have hidle : ¬ acts (play_pass g dealer played0 n).g ((dealer + n) % 4) := ha
    rw [play_turn_idle _ _ _ _ hidle] at hS
    refine ⟨fun _ => ?_, ?_⟩
    · rw [hS]
      by_cases h0 : n = 0
      · subst h0
        rw [play_pass_zero]
        unfold lead_slot
        rw [if_neg ha]
      · exact hslot (by omega)
    · rw [hS]
      rcases hwin with ⟨hnone, hwp, hwv⟩ | ⟨i, hi, hai, hwp, hwv, hmax⟩
      · left
        refine ⟨?_, hwp, hwv⟩
        intro j hj
        by_cases hjn : j = n
        · subst hjn
          exact ha
        · exact hnone j (by omega)
      · right
        refine ⟨i, by omega, hai, hwp, hwv, ?_⟩
        intro j hj haj
        by_cases hjn : j = n
        · subst hjn
          exact absurd haj ha
        · exact hmax j (by omega) haj

theorem tracked_all (g : Game) (dealer : Nat) (played0 : Nat → Card) (hd : dealer < 4)
    (hpos : ∀ j, j < 4 → turn_acts g dealer played0 j → 0 ≤ turn_value g dealer played0 j)
    (n : Nat) (hn : n ≤ 4) : Tracked g dealer played0 n := by
  induction n with
  | zero =>
    refine ⟨fun h => absurd h (by omega), Or.inl ⟨fun j hj => absurd hj (Nat.not_lt_zero j), ?_, ?_⟩⟩
    · rw [play_pass_zero]
    · rw [play_pass_zero]
  | succ m ih =>
    exact tracked_step g dealer played0 m hd (by omega) (hpos m (by omega)) (ih (by omega))

theorem turn_value_nonneg (g : Game) (dealer : Nat) (played0 : Nat → Card) (j : Nat)
    (h : 0 ≤ (turn_card g dealer played0 j).rank) : 0 ≤ turn_value g dealer played0 j :=
  card_value_nonneg _ _ _ h

theorem play_round_winner (g : Game) (dealer : Nat) (played0 : Nat → Card) :
    (play_round g dealer played0).1 = (play_pass g dealer played0 4).winning_player := rfl

/-- When no seat acts in the play loop, `play_round` returns the dealer. -/
theorem play_round_nobody_acts (g : Game) (dealer : Nat) (played0 : Nat → Card) (hd : dealer < 4)
    (hnone : ∀ j, j < 4 → ¬ turn_acts g dealer played0 j) :
    (play_round g dealer played0).1 = dealer := by
  rw [play_round_winner]
  rcases (tracked_all g dealer played0 hd (fun j hj ha => absurd ha (hnone j hj)) 4
    (le_refl 4)).2 with ⟨_, hwp, _⟩ | ⟨i, hi, hai, _⟩
  · exact hwp
  · exact absurd hai (hnone i hi)

/-- When the dealer acts and the played cards have non-negative ranks,
`play_round` returns the earliest of the acting seats whose card has the
greatest value, the value being the one of the specification with the dealer's
played card as lead. -/
theorem play_round_winner_when_dealer_plays (g : Game) (dealer : Nat) (played0 : Nat → Card)
    (hd : dealer < 4)
    (hrank : ∀ j, j < 4 → turn_acts g dealer played0 j →
      0 ≤ (turn_card g dealer played0 j).rank)
    (hlead : turn_acts g dealer played0 0) :
    ∃ i, i < 4 ∧ turn_acts g dealer played0 i ∧
      (play_round g dealer played0).1 = (dealer + i) % 4 ∧
      ∀ j, j < 4 → turn_acts g dealer played0 j →
        claimed_value (get_trump_suit g).1 (some (turn_card g dealer played0 0))
            (turn_card g dealer played0 j) ≤
          claimed_value (get_trump_suit g).1 (some (turn_card g dealer played0 0))
            (turn_card g dealer played0 i) ∧
        (claimed_value (get_trump_suit g).1 (some (turn_card g dealer played0 0))
            (turn_card g dealer played0 j) =
          claimed_value (get_trump_suit g).1 (some (turn_card g dealer played0 0))
            (turn_card g dealer played0 i) → i ≤ j) := by
  have hval : ∀ j, turn_value g dealer played0 j =
      claimed_value (get_trump_suit g).1 (some (turn_card g dealer played0 0))
        (turn_card g dealer played0 j) := by
    intro j
    unfold turn_value
    rw [card_value_eq_claimed]
    unfold lead_slot
    rw [if_pos hlead]
  rw [play_round_winner]
  rcases (tracked_all g dealer played0 hd
    (fun j hj ha => turn_value_nonneg g dealer played0 j (hrank j hj ha)) 4 (le_refl 4)).2 with
    ⟨hnone, _, _⟩ | ⟨i, hi, hai, hwp, _, hmax⟩
  · exact absurd hlead (hnone 0 (by norm_num))
  · refine ⟨i, hi, hai, hwp, ?_⟩
    intro j hj haj
    have := hmax j hj haj
    rw [hval j, hval i] at this
    exact this

/-! ## C12: the tournament winner -/

theorem winner_scan (ps : Nat → Player) (n : Nat) :
    forLoop (winner_step ps) n 0 < max n 1 ∧
    (∀ p, p < n → (ps p).chips ≤ (ps (forLoop (winner_step ps) n 0)).chips) ∧
    (∀ p, p < forLoop (winner_step ps) n 0 →
      (ps p).chips < (ps (forLoop (winner_step ps) n 0)).chips) := by
  induction n with
  | zero =>
    refine ⟨by simp, fun p hp => absurd hp (Nat.not_lt_zero p), fun p hp => ?_⟩
    rw [forLoop_zero] at hp
    exact absurd hp (Nat.not_lt_zero p)
  | succ m ih =>
    obtain ⟨h1, h2, h3⟩ := ih
    rw [forLoop_succ]
    generalize forLoop (winner_step ps) m 0 = w at *
    rw [show winner_step ps m w = if (ps m).chips > (ps w).chips then m else w from rfl]
    by_cases hgt : (ps m).chips > (ps w).chips
    · rw [if_pos hgt]
      refine ⟨by omega, fun p hp => ?_, fun p hp => ?_⟩
      · by_cases hpm : p = m
        · rw [hpm]
        · have := h2 p (by omega)
          omega
      · have := h2 p hp
        omega
    · rw [if_neg hgt]
      refine ⟨by omega, fun p hp => ?_, h3⟩
      by_cases hpm : p = m
      · rw [hpm]
        omega
      · exact h2 p (by omega)

theorem sys_philosopher_winner (g : Game) (stack : Nat → Nat → Card) :
    (sys_philosopher g stack).1 = tournament_winner (tournament_end g stack).players := by
  rw [sys_philosopher]

theorem sys_philosopher_end (g : Game) (stack : Nat → Nat → Card) :
    (sys_philosopher g stack).2 = tournament_end g stack := by
  rw [sys_philosopher]

/-- C12: the tournament winner that `sys_philosopher` computes from the four
final chip counts is, whatever these counts are, a seat in 0..3 that holds
the maximum, and every seat before it holds strictly less: the lowest-indexed
seat among those with the maximum.  Final chips 0, 130, 130, 0 give seat 1. -/
theorem tournament_winner_first_max (g : Game) (stack : Nat → Nat → Card) (ps : Nat → Player) :
    (sys_philosopher g stack).1 = tournament_winner (sys_philosopher g stack).2.players ∧
    tournament_winner ps < 4 ∧
    (∀ p, p < 4 → (ps p).chips ≤ (ps (tournament_winner ps)).chips) ∧
    (∀ p, p < tournament_winner ps → (ps p).chips < (ps (tournament_winner ps)).chips) ∧
    ((ps 0).chips = 0 → (ps 1).chips = 130 → (ps 2).chips = 130 → (ps 3).chips = 0 →
      tournament_winner ps = 1) := by
  obtain ⟨h1, h2, h3⟩ := winner_scan ps 4
  refine ⟨by rw [sys_philosopher_winner, sys_philosopher_end], h1, h2, h3, ?_⟩
  intro c0 c1 c2 c3
  change forLoop (winner_step ps) 4 0 < 4 at h1
  have a0 := h2 0 (by norm_num)
  have a1 := h2 1 (by norm_num)
  have hw : tournament_winner ps = forLoop (winner_step ps) 4 0 := by rw [tournament_winner]
  rw [hw]
  generalize forLoop (winner_step ps) 4 0 = w at *
  interval_cases w
  · rw [c0, c1] at a1
    omega
  · rfl
  · have := h3 1 (by norm_num)
    rw [c1, c2] at this
    omega
  · rw [c3, c1] at a1
    omega

/-! ## C16: when the trump suit is drawn -/

/-- C16, counterexample: in `trump_state` with dealer 0 the trump suit used for
scoring is 1, the first output from the seed at entry mod 4; the betting pass
then leaves the seed 1009760233, whose first output mod 4 is 2.  `play_round`
returns seat 1, whose 9 of diamonds is scored as a trump card; scoring the
same play loop with suit 2 as trump would return seat 2. -/
theorem trump_not_drawn_after_betting :
    (get_trump_suit trump_state).1 = 1 ∧
    (after_betting trump_state 0).seed = 1009760233 ∧
    ((lcg (after_betting trump_state 0).seed % 4 : Nat) : Int) = 2 ∧
    (play_round trump_state 0 stale_played).1 = 1 ∧
    (forLoop (play_turn 0 2) 4
      { g := after_betting trump_state 0, played := stale_played,
        winning_player := 0, winning_value := -1 }).winning_player = 2 := by
  decide!

theorem after_betting_eq (g : Game) (dealer : Nat) :
    after_betting g dealer = betting_round { g with seed := lcg g.seed } dealer := by
  rw [after_betting, get_trump_suit_state, simple_rand_state]

theorem get_trump_suit_value (g : Game) :
    (get_trump_suit g).1 = ((lcg g.seed % 4 : Nat) : Int) := by
  simp only [get_trump_suit, simple_rand_value]

/-- C16, amended: in `play_round` the trump suit is drawn before the betting
pass: for every state and dealer, the trump suit used for scoring is (the
first output produced from the seed at entry) mod 4, the betting pass starts
from the seed that this draw leaves, and the play loop scores with that suit
on the state the betting pass leaves. -/
theorem trump_drawn_before_betting (g : Game) (dealer : Nat) (played0 : Nat → Card) (n : Nat) :
    (get_trump_suit g).1 = ((lcg g.seed % 4 : Nat) : Int) ∧
    (get_trump_suit g).2 = { g with seed := lcg g.seed } ∧
    after_betting g dealer = betting_round { g with seed := lcg g.seed } dealer ∧
    (betting_pass (get_trump_suit g).2 dealer 0).seed = lcg g.seed ∧
    play_pass g dealer played0 n =
      forLoop (play_turn dealer ((lcg g.seed % 4 : Nat) : Int)) n
        { g := betting_round { g with seed := lcg g.seed } dealer, played := played0,
          winning_player := dealer, winning_value := -1 } ∧
    (play_round g dealer played0).1 = (play_pass g dealer played0 4).winning_player := by
  refine ⟨get_trump_suit_value g, ?_, after_betting_eq g dealer, ?_, ?_, ?_⟩
  · rw [get_trump_suit_state, simple_rand_state]
  · rw [betting_pass_zero, get_trump_suit_state, simple_rand_state]
  · rw [play_pass, get_trump_suit_value, after_betting_eq]
  · rw [play_round_winner]

/-! ## C17: random draws of the betting pass -/

/-- C17, counterexample: in `short_state` seat 0 is not folded and holds 10
chips at a bet of 10, so its turn is a forced fold; the turn still draws a
random number: the seed changes from 1 to 1103527590.  The whole betting pass
from that state, in which no seat has more chips than the bet, makes four
draws. -/
theorem forced_fold_draws :
    (short_state.players ((0 + 0) % 4)).folded = 0 ∧
    (short_state.players ((0 + 0) % 4)).chips ≤ short_state.current_bet ∧
    short_state.seed = 1 ∧
    (bet_turn 0 0 short_state).seed = 1103527590 ∧
    ((bet_turn 0 0 short_state).players 0).folded = 1 ∧
    (betting_round short_state 0).seed = 1147902781 := by
  decide!

theorem bet_turn_seed_open (dealer i : Nat) (g : Game)
    (hf : (g.players ((dealer + i) % 4)).folded = 0) :
    (bet_turn dealer i g).seed = lcg g.seed := by
  rcases bet_turn_cases dealer i g with h | ⟨_, h⟩ | ⟨_, hc, h⟩ | ⟨_, hc, h⟩
  · exact absurd hf h
  · rw [bet_turn_fold dealer i g hf h]
  · rw [bet_turn_call dealer i g hf hc h]
  · rw [bet_turn_raise dealer i g hf hc h]

theorem betting_pass_seed (g : Game) (dealer n : Nat) :
    (betting_pass g dealer n).seed = Nat.iterate lcg (betting_draws g dealer n) g.seed := by
  induction n with
  | zero =>
    rw [betting_pass_zero]
    rfl
  | succ m ih =>
    rw [betting_pass_succ, betting_draws]
    by_cases hf : ((betting_pass g dealer m).players ((dealer + m) % 4)).folded = 0
    · rw [bet_turn_seed_open dealer m _ hf, if_pos hf, Function.iterate_succ_apply', ih]
    · rw [bet_turn_skip dealer m _ hf, if_neg hf, ih]
      rfl

/-- C17, amended: in `betting_round` a random value is drawn for every player
who is not folded when their turn starts, also for one whose chips are
`<= current_bet` and who is therefore forced to fold: the turn of a non-folded
player advances the seed by exactly one draw whatever their chips, the turn
of an already-folded player leaves the seed unchanged, and the seed after the
pass is the entry seed advanced once per seat that was not folded at its
turn. -/
theorem draws_for_every_open_seat (g : Game) (dealer i : Nat) :
    ((g.players ((dealer + i) % 4)).folded = 0 → (bet_turn dealer i g).seed = lcg g.seed) ∧
    ((g.players ((dealer + i) % 4)).folded ≠ 0 → (bet_turn dealer i g).seed = g.seed) ∧
    (betting_round g dealer).seed = Nat.iterate lcg (betting_draws g dealer 4) g.seed ∧
    betting_draws g dealer 4 ≤ 4 := by
  refine ⟨bet_turn_seed_open dealer i g, fun hf => by rw [bet_turn_skip dealer i g hf], ?_, ?_⟩
  · rw [← betting_pass_four, betting_pass_seed]
  · simp only [betting_draws]
    split_ifs <;> omega

/-! ## C18: chips over the tournament -/

theorem init_players_chips (n : Nat) (ps : Nat → Player) (p : Nat) (hp : p < n) :
    (forLoop init_player n ps p).chips = 100 ∧ (forLoop init_player n ps p).folded = 0 ∧
    (forLoop init_player n ps p).hand_size = 0 := by
  induction n with
  | zero => exact absurd hp (Nat.not_lt_zero p)
  | succ m ih =>
    rw [forLoop_succ, init_player, upd_apply]
    by_cases hpm : p = m
    · rw [if_pos hpm]
      exact ⟨rfl, rfl, rfl⟩
    · rw [if_neg hpm]
      exact ih (by omega)

theorem init_game_table (g : Game) :
    (init_game g).pot = 0 ∧ (init_game g).current_bet = 0 ∧
    ∀ p, p < 4 → ((init_game g).players p).chips = 100 ∧
      ((init_game g).players p).folded = 0 ∧ ((init_game g).players p).hand_size = 0 :=
  ⟨rfl, rfl, fun p hp => init_players_chips 4 g.players p hp⟩

theorem chips_sum_point (ps qs : Nat → Player) (w : Nat) (x : Int) (hw : w < 4)
    (h1 : (qs w).chips = (ps w).chips + x)
    (h2 : ∀ p, p ≠ w → (qs p).chips = (ps p).chips) :
    chips_sum qs = chips_sum ps + x := by
  unfold chips_sum
  interval_cases w
  · rw [h1, h2 1 (by decide), h2 2 (by decide), h2 3 (by decide)]
    ring
  · rw [h1, h2 0 (by decide), h2 2 (by decide), h2 3 (by decide)]
    ring
  · rw [h1, h2 0 (by decide), h2 1 (by decide), h2 3 (by decide)]
    ring
  · rw [h1, h2 0 (by decide), h2 1 (by decide), h2 2 (by decide)]
    ring

theorem play_round_chips_sum (g : Game) (dealer : Nat) (played0 : Nat → Card) (hd : dealer < 4) :
    chips_sum (play_round g dealer played0).2.players = chips_sum g.players + g.pot := by
  obtain ⟨_, _, hw, h1, h2, _, _, _⟩ := play_round_money g dealer played0 hd
  rw [chips_sum_point (after_betting g dealer).players _ _ _ hw h1 h2]
  have := after_betting_total g dealer
  omega

theorem reachable_pot_chips (s : Game) (h : Reachable s) :
    s.pot = 0 ∧ chips_sum s.players = 400 := by
  induction h with
  | start g s hpot hbet hplayers =>
    obtain ⟨i1, _, i3⟩ := init_game_table g
    refine ⟨hpot.trans i1, ?_⟩
    unfold chips_sum
    rw [(hplayers 0 (by decide)).1, (hplayers 1 (by decide)).1, (hplayers 2 (by decide)).1,
      (hplayers 3 (by decide)).1, (i3 0 (by decide)).1, (i3 1 (by decide)).1,
      (i3 2 (by decide)).1, (i3 3 (by decide)).1]
    rfl
  | round s dealer played0 hd _ ih =>
    refine ⟨(play_round_money s dealer played0 hd).1, ?_⟩
    rw [play_round_chips_sum s dealer played0 hd, ih.1, ih.2]
    rfl

/-! ## C19: chips, pot and bet are non-negative multiples of 10 -/

theorem bet_turn_keeps_tens (dealer i : Nat) (g : Game) (h : Tens g) :
    Tens (bet_turn dealer i g) := by
  obtain ⟨hp0, hp10, hb0, hb10, hch⟩ := h
  have hs := hch _ (seat_lt dealer i)
  have hothers : ∀ (pl : Player), (0 ≤ pl.chips ∧ 10 ∣ pl.chips) →
      ∀ p, p < 4 → 0 ≤ (upd g.players ((dealer + i) % 4) pl p).chips ∧
        10 ∣ (upd g.players ((dealer + i) % 4) pl p).chips := by
    intro pl hpl p hp
    rw [upd_apply]
    by_cases hps : p = (dealer + i) % 4
    · rw [if_pos hps]
      exact hpl
    · rw [if_neg hps]
      exact hch p hp
  rcases bet_turn_cases dealer i g with h1 | ⟨hf, h1⟩ | ⟨hf, hc, h1⟩ | ⟨hf, hc, h1⟩
  · rw [bet_turn_skip dealer i g h1]
    exact ⟨hp0, hp10, hb0, hb10, hch⟩
  · rw [bet_turn_fold dealer i g hf h1]
    exact ⟨hp0, hp10, hb0, hb10, hothers _ hs⟩
  · rw [bet_turn_call dealer i g hf hc h1]
    refine ⟨?_, ?_, hb0, hb10, hothers _ ⟨?_, ?_⟩⟩
    · show 0 ≤ g.pot + g.current_bet
      omega
    · show 10 ∣ g.pot + g.current_bet
      omega
    · show 0 ≤ (g.players ((dealer + i) % 4)).chips - g.current_bet
      omega
    · show 10 ∣ (g.players ((dealer + i) % 4)).chips - g.current_bet
      omega
  · rw [bet_turn_raise dealer i g hf hc h1]
    refine ⟨?_, ?_, ?_, ?_, hothers _ ⟨?_, ?_⟩⟩
    · show 0 ≤ g.pot + (g.current_bet + 10)
      omega
    · show 10 ∣ g.pot + (g.current_bet + 10)
      omega
    · show 0 ≤ g.current_bet + 10
      omega
    · show 10 ∣ g.current_bet + 10
      omega
    · show 0 ≤ (g.players ((dealer + i) % 4)).chips - (g.current_bet + 10)
      omega
    · show 10 ∣ (g.players ((dealer + i) % 4)).chips - (g.current_bet + 10)
      omega

theorem betting_pass_keeps_tens (g : Game) (dealer n : Nat) (h : Tens g) :
    Tens (betting_pass g dealer n) := by
  induction n with
  | zero =>
    rw [betting_pass_zero]
    obtain ⟨hp0, hp10, _, _, hch⟩ := h
    exact ⟨hp0, hp10, by show (0 : Int) ≤ 10; norm_num, by show (10 : Int) ∣ 10; norm_num, hch⟩
  | succ m ih =>
    rw [betting_pass_succ]
    exact bet_turn_keeps_tens dealer m _ ih

theorem trump_draw_keeps_tens (g : Game) (h : Tens g) : Tens (get_trump_suit g).2 := by
  rw [get_trump_suit_state, simple_rand_state]
  obtain ⟨h1, h2, h3, h4, h5⟩ := h
  exact ⟨h1, h2, h3, h4, h5⟩

theorem play_pass_keeps_tens (g : Game) (dealer : Nat) (played0 : Nat → Card) (n : Nat)
    (h : Tens g) : Tens (play_pass g dealer played0 n).g := by
  have hb : Tens (after_betting g dealer) := by
    rw [after_betting, ← betting_pass_four]
    exact betting_pass_keeps_tens _ dealer 4 (trump_draw_keeps_tens g h)
  obtain ⟨l1, l2, l3, _⟩ := play_loop_money dealer (get_trump_suit g).1 n
    { g := after_betting g dealer, played := played0, winning_player := dealer,
      winning_value := -1 }
  rw [← play_pass] at l1 l2 l3
  obtain ⟨hp0, hp10, hb0, hb10, hch⟩ := hb
  refine ⟨?_, ?_, ?_, ?_, fun p hp => ?_⟩
  · rw [l1]; exact hp0
  · rw [l1]; exact hp10
  · rw [l2]; exact hb0
  · rw [l2]; exact hb10
  · rw [(l3 p).1]; exact hch p hp

theorem play_round_keeps_tens (g : Game) (dealer : Nat) (played0 : Nat → Card) (h : Tens g) :
    Tens (play_round g dealer played0).2 := by
  obtain ⟨hp0, hp10, _, _, hch⟩ := play_pass_keeps_tens g dealer played0 4 h
  obtain ⟨r1, r2, r3, r4⟩ := resolve_money (play_pass g dealer played0 4)
  show Tens (resolve (play_pass g dealer played0 4))
  refine ⟨by rw [r1], by rw [r1]; exact dvd_zero _, by rw [r2], by rw [r2]; exact dvd_zero _,
    fun p hp => ?_⟩
  by_cases hpw : p = (play_pass g dealer played0 4).winning_player
  · rw [hpw, r3]
    have := hch p hp
    rw [hpw] at this
    constructor <;> omega
  · rw [r4 p hpw]
    exact hch p hp

theorem reachable_tens (s : Game) (h : Reachable s) : Tens s := by
  induction h with
  | start g s hpot hbet hplayers =>
    obtain ⟨i1, i2, i3⟩ := init_game_table g
    refine ⟨by rw [hpot, i1], by rw [hpot, i1]; exact dvd_zero _, by rw [hbet, i2],
      by rw [hbet, i2]; exact dvd_zero _, fun p hp => ?_⟩
    rw [(hplayers p hp).1, (i3 p hp).1]
    exact ⟨by norm_num, by norm_num⟩
  | round s dealer played0 _ _ ih => exact play_round_keeps_tens s dealer played0 ih

/-! ## C18: chips over the tournament, on 32 bits -/

theorem reachable_money_small (s : Game) (h : Reachable s) : money_small s := by
  obtain ⟨hp, hs⟩ := reachable_pot_chips s h
  obtain ⟨_, _, _, _, hc⟩ := reachable_tens s h
  have c0 := (hc 0 (by decide)).1
  have c1 := (hc 1 (by decide)).1
  have c2 := (hc 2 (by decide)).1
  have c3 := (hc 3 (by decide)).1
  unfold chips_sum at hs
  refine ⟨?_, fun p hp4 => ?_⟩
  · rw [hp]
    decide
  · unfold small
    interval_cases p <;> omega

/-- C18, counterexample: in `rich_king_state` every field is a value of `int`
(pot 2147483600, 100 chips and five cards each).  With dealer 0 every seat
calls 10 and seat 0 wins the round; its payout `chips += pot` leaves the range
of `int`, and the four players end with -2147483566, 90, 90 and 90 chips: the
sum of the chips after the round is not the sum before plus the pot before. -/
theorem round_wraps_chip_sum :
    int_range rich_king_state.pot ∧
    int_range (rich_king_state.players 0).chips ∧ int_range (rich_king_state.players 1).chips ∧
    int_range (rich_king_state.players 2).chips ∧ int_range (rich_king_state.players 3).chips ∧
    (rich_king_state.players 0).hand_size = 5 ∧ (rich_king_state.players 1).hand_size = 5 ∧
    (rich_king_state.players 2).hand_size = 5 ∧ (rich_king_state.players 3).hand_size = 5 ∧
    (play_round_int rich_king_state 0 stale_played).1 = 0 ∧
    ((play_round_int rich_king_state 0 stale_played).2.players 0).chips = -2147483566 ∧
    chips_sum (play_round_int rich_king_state 0 stale_played).2.players = -2147483296 ∧
    chips_sum rich_king_state.players + rich_king_state.pot = 2147484000 ∧
    chips_sum (play_round_int rich_king_state 0 stale_played).2.players ≠
      chips_sum rich_king_state.players + rich_king_state.pot := by
  decide!

/-- C18, amended: after `init_game` the pot is 0 and the four players' chips
sum to 400; in every state reachable from there by any number of `play_round`
calls with dealers in 0..3 (any seed, any hands) the pot is 0 and the chips sum
to 400, and from such a state no step of `play_round` leaves the range of
`int` (the round on 32-bit `int`s is the round computed with exact integers);
and for any state whose pot and chips lie between `-2^29` and `2^29` and whose
hand sizes are between 0 and 5, and any dealer in 0..3, the sum of the chips
after `play_round` on 32-bit `int`s is the sum before plus the pot before. -/
theorem chips_conserved_over_tournament :
    (∀ g : Game, (init_game g).pot = 0 ∧ chips_sum (init_game g).players = 400 ∧
      Reachable (init_game g)) ∧
    (∀ s : Game, Reachable s → s.pot = 0 ∧ chips_sum s.players = 400) ∧
    (∀ (s : Game) (dealer : Nat) (played0 : Nat → Card), Reachable s → dealer < 4 →
      play_round_int s dealer played0 = play_round s dealer played0) ∧
    (∀ (s : Game) (dealer : Nat) (played0 : Nat → Card), dealer < 4 →
      money_small s → hands_in_bounds s →
      chips_sum (play_round_int s dealer played0).2.players = chips_sum s.players + s.pot) := by
  refine ⟨fun g => ?_, reachable_pot_chips, ?_, ?_⟩
  · have hr : Reachable (init_game g) :=
      Reachable.start g (init_game g) rfl rfl (fun p _ => ⟨rfl, rfl⟩)
    exact ⟨rfl, (reachable_pot_chips _ hr).2, hr⟩
  · intro s dealer played0 hr hd
    exact play_round_int_eq s dealer played0 hd (reachable_money_small s hr)
  · intro s dealer played0 hd hm _
    rw [play_round_int_eq s dealer played0 hd hm]
    exact play_round_chips_sum s dealer played0 hd

theorem chips_conserved_over_tournament_witness :
    money_small call_state ∧ hands_in_bounds call_state ∧
    chips_sum (play_round_int call_state 0 stale_played).2.players =
      chips_sum call_state.players + call_state.pot :=
  ⟨⟨by decide, fun _ _ => (by decide : small 100)⟩,
   fun _ _ => ⟨(by decide : (0 : Int) ≤ 5), (by decide : (5 : Int) ≤ 5)⟩,
   chips_conserved_over_tournament.2.2.2 call_state 0 stale_played (by decide)
     ⟨by decide, fun _ _ => (by decide : small 100)⟩
     (fun _ _ => ⟨(by decide : (0 : Int) ≤ 5), (by decide : (5 : Int) ≤ 5)⟩)⟩

/-- C19: in every state reachable from `init_game` by any number of
`play_round` calls with dealers in 0..3 (any seed, any hands), and in every
intermediate state of the round that `play_round` runs from such a state
(after the trump draw, after each turn of the betting pass, after each turn
of the play loop), the pot, `current_bet` and every player's chips are
non-negative multiples of 10; in particular no Raise of a tournament leaves a
player with chips below 0. -/
theorem tournament_chips_tens (s : Game) (h : Reachable s) :
    Tens s ∧
    (∀ dealer n, Tens (betting_pass (get_trump_suit s).2 dealer n)) ∧
    (∀ dealer played0 n, Tens (play_pass s dealer played0 n).g) ∧
    (∀ dealer n p, p < 4 →
      0 ≤ ((bet_turn dealer n (betting_pass (get_trump_suit s).2 dealer n)).players p).chips) :=
  ⟨reachable_tens s h,
   fun dealer n => betting_pass_keeps_tens (get_trump_suit s).2 dealer n
     (trump_draw_keeps_tens s (reachable_tens s h)),
   fun dealer played0 n => play_pass_keeps_tens s dealer played0 n (reachable_tens s h),
   fun dealer n p hp =>
     ((bet_turn_keeps_tens dealer n (betting_pass (get_trump_suit s).2 dealer n)
        (betting_pass_keeps_tens (get_trump_suit s).2 dealer n
          (trump_draw_keeps_tens s (reachable_tens s h)))).2.2.2.2 p hp).1⟩

theorem tournament_chips_tens_witness :
    Tens (play_round (init_game call_state) 0 stale_played).2 :=
  (tournament_chips_tens (play_round (init_game call_state) 0 stale_played).2
    (Reachable.round _ 0 stale_played (by decide)
      (Reachable.start call_state (init_game call_state) rfl rfl (fun _ _ => ⟨rfl, rfl⟩)))).1

/-! ## C20: the initial content of `played` -/

theorem play_turn_game_congr (dealer : Nat) (t : Int) (i : Nat) (s s2 : RoundState)
    (hg : s.g = s2.g) : (play_turn dealer t i s).g = (play_turn dealer t i s2).g := by
  by_cases ha : acts s.g ((dealer + i) % 4)
  · have ha2 : acts s2.g ((dealer + i) % 4) := hg ▸ ha
    rw [play_turn_act dealer t i s ha, play_turn_act dealer t i s2 ha2]
    show acted_game s.g _ = acted_game s2.g _
    rw [hg]
  · have ha2 : ¬ acts s2.g ((dealer + i) % 4) := hg ▸ ha
    rw [play_turn_idle dealer t i s ha, play_turn_idle dealer t i s2 ha2]
    exact hg

/-- Two runs of one turn agree on globals and winner when they start with the
same globals and winner and the value computation reads the same
`played[dealer]` in both. -/
theorem play_turn_congr (dealer : Nat) (t : Int) (i : Nat) (s s2 : RoundState)
    (hg : s.g = s2.g) (hwp : s.winning_player = s2.winning_player)
    (hwv : s.winning_value = s2.winning_value)
    (href : upd s.played ((dealer + i) % 4) ((s.g.players ((dealer + i) % 4)).hand 0) dealer =
      upd s2.played ((dealer + i) % 4) ((s2.g.players ((dealer + i) % 4)).hand 0) dealer) :
    (play_turn dealer t i s).g = (play_turn dealer t i s2).g ∧
    (play_turn dealer t i s).winning_player = (play_turn dealer t i s2).winning_player ∧
    (play_turn dealer t i s).winning_value = (play_turn dealer t i s2).winning_value := by
  refine ⟨play_turn_game_congr dealer t i s s2 hg, ?_⟩
  by_cases ha : acts s.g ((dealer + i) % 4)
  · have ha2 : acts s2.g ((dealer + i) % 4) := hg ▸ ha
    rw [play_turn_act dealer t i s ha, play_turn_act dealer t i s2 ha2]
    simp only []
    rw [href, hwp, hwv, hg]
    exact ⟨rfl, rfl⟩
  · have ha2 : ¬ acts s2.g ((dealer + i) % 4) := hg ▸ ha
    rw [play_turn_idle dealer t i s ha, play_turn_idle dealer t i s2 ha2]
    exact ⟨hwp, hwv⟩

theorem play_turn_played_other (dealer : Nat) (t : Int) (i : Nat) (s : RoundState) (k : Nat)
    (hk : k ≠ (dealer + i) % 4) : (play_turn dealer t i s).played k = s.played k := by
  by_cases ha : acts s.g ((dealer + i) % 4)
  · rw [play_turn_act dealer t i s ha]
    exact upd_other _ _ hk
  · rw [play_turn_idle dealer t i s ha]

theorem play_pass_congr (g : Game) (dealer : Nat) (p1 p2 : Nat → Card) (hd : dealer < 4)
    (hact : acts (after_betting g dealer) dealer) (n : Nat) (hn : n < 4) :
    (play_pass g dealer p1 (n + 1)).g = (play_pass g dealer p2 (n + 1)).g ∧
    (play_pass g dealer p1 (n + 1)).winning_player =
      (play_pass g dealer p2 (n + 1)).winning_player ∧
    (play_pass g dealer p1 (n + 1)).winning_value =
      (play_pass g dealer p2 (n + 1)).winning_value ∧
    (play_pass g dealer p1 (n + 1)).played dealer =
      (play_pass g dealer p2 (n + 1)).played dealer := by
  induction n with
  | zero =>
    have hseat : (dealer + 0) % 4 = dealer := by omega
    rw [play_pass_succ, play_pass_succ, play_pass_zero, play_pass_zero]
    have ha : acts (after_betting g dealer) ((dealer + 0) % 4) := by
      rw [hseat]
      exact hact
    obtain ⟨c1, c2, c3⟩ := play_turn_congr dealer (get_trump_suit g).1 0
      { g := after_betting g dealer, played := p1, winning_player := dealer,
        winning_value := -1 }
      { g := after_betting g dealer, played := p2, winning_player := dealer,
        winning_value := -1 } rfl rfl rfl
      (by
        simp only []
        rw [upd_apply, upd_apply, if_pos hseat.symm, if_pos hseat.symm])
    refine ⟨c1, c2, c3, ?_⟩
    rw [play_turn_act _ _ _ _ ha, play_turn_act _ _ _ _ ha]
    simp only []
    rw [upd_apply, upd_apply, if_pos hseat.symm, if_pos hseat.symm]
  | succ m ih =>
    obtain ⟨i1, i2, i3, i4⟩ := ih (by omega)
    have hne : dealer ≠ (dealer + (m + 1)) % 4 := by omega
    rw [play_pass_succ g dealer p1 (m + 1), play_pass_succ g dealer p2 (m + 1)]
    obtain ⟨c1, c2, c3⟩ := play_turn_congr dealer (get_trump_suit g).1 (m + 1)
      (play_pass g dealer p1 (m + 1)) (play_pass g dealer p2 (m + 1)) i1 i2 i3
      (by rw [upd_other _ _ hne, upd_other _ _ hne, i4])
    refine ⟨c1, c2, c3, ?_⟩
    rw [play_turn_played_other _ _ _ _ _ hne, play_turn_played_other _ _ _ _ _ hne, i4]

theorem resolve_congr (s s2 : RoundState) (hg : s.g = s2.g)
    (hw : s.winning_player = s2.winning_player) : resolve s = resolve s2 := by
  unfold resolve
  rw [hg, hw]

/-- C20: for every state, every dealer in 0..3 and any two initial contents
of the local array `played`, if after the betting pass the dealer is not
folded and has a non-empty hand, then `play_round` returns the same seat and
leaves the same globals in both runs. -/
theorem played_garbage_irrelevant (g : Game) (dealer : Nat) (p1 p2 : Nat → Card)
    (hd : dealer < 4)
    (hfolded : ((after_betting g dealer).players dealer).folded = 0)
    (hhand : 0 < ((after_betting g dealer).players dealer).hand_size) :
    (play_round g dealer p1).1 = (play_round g dealer p2).1 ∧
    (play_round g dealer p1).2 = (play_round g dealer p2).2 := by
  obtain ⟨c1, c2, _, _⟩ := play_pass_congr g dealer p1 p2 hd ⟨hfolded, hhand⟩ 3 (by norm_num)
  refine ⟨?_, ?_⟩
  · rw [play_round_winner, play_round_winner]
    exact c2
  · show resolve (play_phase g dealer p1) = resolve (play_phase g dealer p2)
    rw [play_phase, play_phase]
    exact resolve_congr _ _ c1 c2

theorem played_garbage_irrelevant_witness :
    (play_round trump_state 0 stale_played).1 = (play_round trump_state 0 (fun _ => default)).1 ∧
    (play_round trump_state 0 stale_played).2 = (play_round trump_state 0 (fun _ => default)).2 :=
  played_garbage_irrelevant trump_state 0 stale_played (fun _ => default) (by decide)
    (by decide!) (by decide!)

/-! ## C11: SwapHands -/

theorem copy_loop (h : Nat → Card) (n : Nat) (t0 : Nat → Card) (i : Nat) :
    forLoop (fun i t => upd t i (h i)) n t0 i = if i < n then h i else t0 i := by
  induction n with
  | zero => simp
  | succ m ih =>
    rw [forLoop_succ, upd_apply]
    by_cases him : i = m
    · subst him
      simp
    · rw [if_neg him, ih]
      by_cases hlt : i < m
      · rw [if_pos hlt, if_pos (by omega)]
      · rw [if_neg hlt, if_neg (by omega)]

/-- The loop that stores `t[i]` in `players[k].hand[i]` for `i < n`. -/
theorem slot_loop (k : Nat) (t : Nat → Card) (n : Nat) (ps : Nat → Player) :
    (∀ r, r ≠ k → forLoop (fun i q => set_hand_slot q k i (t i)) n ps r = ps r) ∧
    (forLoop (fun i q => set_hand_slot q k i (t i)) n ps k).hand_size = (ps k).hand_size ∧
    (∀ i, (forLoop (fun i q => set_hand_slot q k i (t i)) n ps k).hand i =
      if i < n then t i else (ps k).hand i) := by
  induction n with
  | zero => exact ⟨fun r _ => rfl, rfl, fun i => by simp⟩
  | succ m ih =>
    obtain ⟨h1, h2, h3⟩ := ih
    rw [forLoop_succ]
    refine ⟨fun r hr => ?_, ?_, fun i => ?_⟩
    · rw [set_hand_slot, upd_other _ _ hr]
      exact h1 r hr
    · rw [set_hand_slot, upd_same]
      exact h2
    · rw [set_hand_slot, upd_same]
      show upd _ m (t m) i = _
      rw [upd_apply]
      by_cases him : i = m
      · subst him
        simp
      · rw [if_neg him, h3]
        by_cases hlt : i < m
        · rw [if_pos hlt, if_pos (by omega)]
        · rw [if_neg hlt, if_neg (by omega)]

/-- The loop that copies the hand of seat `p+1` into the hand of seat `p`
reads an unchanged source. -/
theorem slot_loop_source (p n : Nat) (ps : Nat → Player) :
    forLoop (fun i q => set_hand_slot q p i ((q (p + 1)).hand i)) n ps =
      forLoop (fun i q => set_hand_slot q p i ((ps (p + 1)).hand i)) n ps := by
  induction n with
  | zero => rfl
  | succ m ih =>
    rw [forLoop_succ, forLoop_succ, ih,
      (slot_loop p (ps (p + 1)).hand m ps).1 (p + 1) (by omega)]

theorem set_hand_size_same (ps : Nat → Player) (k : Nat) (n : Int) :
    (set_hand_size ps k n k).hand_size = n ∧ (set_hand_size ps k n k).hand = (ps k).hand := by
  rw [set_hand_size, upd_same]
  exact ⟨rfl, rfl⟩

theorem set_hand_size_other (ps : Nat → Player) (k : Nat) (n : Int) (r : Nat) (hr : r ≠ k) :
    set_hand_size ps k n r = ps r := by
  rw [set_hand_size, upd_other _ _ hr]

/-- What the swap block of `activate_special` leaves in the two hands. -/
theorem swap_hands_hands (ps : Nat → Player) (p : Nat) (temp0 : Nat → Card) :
    (∀ r, r ≠ p → r ≠ p + 1 → swap_hands ps p temp0 r = ps r) ∧
    (swap_hands ps p temp0 p).hand_size = (ps (p + 1)).hand_size ∧
    (∀ i, (swap_hands ps p temp0 p).hand i =
      if i < (ps (p + 1)).hand_size.toNat then (ps (p + 1)).hand i else (ps p).hand i) ∧
    (swap_hands ps p temp0 (p + 1)).hand_size = (ps p).hand_size ∧
    (∀ i, (swap_hands ps p temp0 (p + 1)).hand i =
      if i < (ps p).hand_size.toNat then (ps p).hand i else (ps (p + 1)).hand i) := by
  have hq : p + 1 ≠ p := by omega
  have hpq : p ≠ p + 1 := by omega
  have e1 : set_hand_size ps p (ps (p + 1)).hand_size (p + 1) = ps (p + 1) :=
    set_hand_size_other ps p _ (p + 1) hq
  unfold swap_hands
  rw [e1, slot_loop_source, e1]
  obtain ⟨a1, a2, a3⟩ := slot_loop p (ps (p + 1)).hand (ps (p + 1)).hand_size.toNat
    (set_hand_size ps p (ps (p + 1)).hand_size)
  generalize forLoop (fun i q => set_hand_slot q p i ((ps (p + 1)).hand i))
    (ps (p + 1)).hand_size.toNat (set_hand_size ps p (ps (p + 1)).hand_size) = ps2 at a1 a2 a3 ⊢
  obtain ⟨b1, b2, b3⟩ := slot_loop (p + 1)
    (forLoop (fun i t => upd t i ((ps p).hand i)) (ps p).hand_size.toNat temp0)
    (ps p).hand_size.toNat (set_hand_size ps2 (p + 1) (ps p).hand_size)
  generalize forLoop (fun i q => set_hand_slot q (p + 1) i
    (forLoop (fun i t => upd t i ((ps p).hand i)) (ps p).hand_size.toNat temp0 i))
    (ps p).hand_size.toNat (set_hand_size ps2 (p + 1) (ps p).hand_size) = ps4 at b1 b2 b3 ⊢
  have c1 := set_hand_size_same ps p (ps (p + 1)).hand_size
  have c2 := set_hand_size_same ps2 (p + 1) (ps p).hand_size
  refine ⟨fun r hr hr2 => ?_, ?_, fun i => ?_, ?_, fun i => ?_⟩
  · rw [b1 r hr2, set_hand_size_other _ _ _ r hr2, a1 r hr, set_hand_size_other _ _ _ r hr]
  · rw [b1 p hpq, set_hand_size_other _ _ _ p hpq, a2, c1.1]
  · rw [b1 p hpq, set_hand_size_other _ _ _ p hpq, a3, c1.2]
  · rw [b2, c2.1]
  · rw [b3, c2.2, a1 (p + 1) hq, e1, copy_loop]
    split_ifs <;> rfl

theorem activate_special_swap (g : Game) (p : Nat) (card : Card) (hsp : card.special = 2)
    (hp : p < 3) :
    activate_special g p card =
      { g with players := swap_hands g.players p (fun _ => default) } := by
  unfold activate_special
  rw [if_neg (by rw [hsp]; decide), if_pos hsp, if_pos hp]

theorem activate_special_last (g : Game) (p : Nat) (card : Card) (hsp : card.special = 2)
    (hp : ¬ p < 3) : activate_special g p card = g := by
  unfold activate_special
  rw [if_neg (by rw [hsp]; decide), if_pos hsp, if_neg hp]

/-- C11: for every state whose hand sizes are between 0 and 5 (so that the
copies stay inside the arrays) and every card with special 2 (SwapHands): `activate_special` on a seat `p < 3` exchanges the
hands of seats `p` and `p+1` (each gets the other's size and the other's
cards in the same order) and changes nothing else: the other two players,
every player's chips and folded flag, pot, `current_bet`, seed and deck are
as before.  On seat 3 it changes nothing at all.  In particular seat 2
exchanges hands with seat 3. -/
theorem swap_hands_exchanges (g : Game) (p : Nat) (card : Card)
    (_hsize : ∀ r, r < 4 → 0 ≤ (g.players r).hand_size ∧ (g.players r).hand_size ≤ 5)
    (hsp : card.special = 2) :
    (p < 3 →
      ((activate_special g p card).players p).hand_size = (g.players (p + 1)).hand_size ∧
      (∀ i : Nat, (i : Int) < (g.players (p + 1)).hand_size →
        ((activate_special g p card).players p).hand i = (g.players (p + 1)).hand i) ∧
      ((activate_special g p card).players (p + 1)).hand_size = (g.players p).hand_size ∧
      (∀ i : Nat, (i : Int) < (g.players p).hand_size →
        ((activate_special g p card).players (p + 1)).hand i = (g.players p).hand i) ∧
      (∀ r, r ≠ p → r ≠ p + 1 → (activate_special g p card).players r = g.players r) ∧
      (∀ r, ((activate_special g p card).players r).chips = (g.players r).chips ∧
        ((activate_special g p card).players r).folded = (g.players r).folded) ∧
      (activate_special g p card).pot = g.pot ∧
      (activate_special g p card).current_bet = g.current_bet ∧
      (activate_special g p card).seed = g.seed ∧
      (activate_special g p card).deck = g.deck) ∧
    (p = 3 → activate_special g p card = g) ∧
    (((activate_special g 2 card).players 2).hand_size = (g.players 3).hand_size ∧
      ((activate_special g 2 card).players 3).hand_size = (g.players 2).hand_size ∧
      (∀ i : Nat, (i : Int) < (g.players 3).hand_size →
        ((activate_special g 2 card).players 2).hand i = (g.players 3).hand i) ∧
      (∀ i : Nat, (i : Int) < (g.players 2).hand_size →
        ((activate_special g 2 card).players 3).hand i = (g.players 2).hand i)) := by
  have key : ∀ q, q < 3 →
      ((activate_special g q card).players q).hand_size = (g.players (q + 1)).hand_size ∧
      (∀ i : Nat, (i : Int) < (g.players (q + 1)).hand_size →
        ((activate_special g q card).players q).hand i = (g.players (q + 1)).hand i) ∧
      ((activate_special g q card).players (q + 1)).hand_size = (g.players q).hand_size ∧
      (∀ i : Nat, (i : Int) < (g.players q).hand_size →
        ((activate_special g q card).players (q + 1)).hand i = (g.players q).hand i) ∧
      (∀ r, r ≠ q → r ≠ q + 1 → (activate_special g q card).players r = g.players r) := by
    intro q hq
    rw [activate_special_swap g q card hsp hq]
    obtain ⟨s1, s2, s3, s4, s5⟩ := swap_hands_hands g.players q (fun _ => default)
    refine ⟨s2, fun i hi => ?_, s4, fun i hi => ?_, s1⟩
    · show (swap_hands g.players q (fun _ => default) q).hand i = _
      rw [s3, if_pos (by omega)]
    · show (swap_hands g.players q (fun _ => default) (q + 1)).hand i = _
      rw [s5, if_pos (by omega)]
  refine ⟨fun hp => ?_, fun hp => activate_special_last g p card hsp (by omega), ?_⟩
  · obtain ⟨k1, k2, k3, k4, k5⟩ := key p hp
    obtain ⟨m1, m2, m3⟩ := activate_special_money g p card
    refine ⟨k1, k2, k3, k4, k5, m3, m1, m2, ?_, ?_⟩
    · rw [activate_special_swap g p card hsp hp]
    · rw [activate_special_swap g p card hsp hp]
  · obtain ⟨k1, k2, k3, k4, _⟩ := key 2 (by norm_num)
    exact ⟨k1, k3, k2, k4⟩

theorem swap_hands_exchanges_witness :
    ((activate_special lead_state 2 (built_card 12)).players 2).hand_size =
      (lead_state.players 3).hand_size ∧
    ((activate_special lead_state 2 (built_card 12)).players 3).hand_size =
      (lead_state.players 2).hand_size ∧
    ((activate_special lead_state 2 (built_card 12)).players 2).hand 0 =
      (lead_state.players 3).hand 0 ∧
    ((activate_special lead_state 2 (built_card 12)).players 3).hand 4 =
      (lead_state.players 2).hand 4 :=
  ⟨(swap_hands_exchanges lead_state 2 (built_card 12)
      (fun _ _ => ⟨show (0 : Int) ≤ 5 by decide, show (5 : Int) ≤ 5 by decide⟩)
      (by decide)).2.2.1,
   (swap_hands_exchanges lead_state 2 (built_card 12)
      (fun _ _ => ⟨show (0 : Int) ≤ 5 by decide, show (5 : Int) ≤ 5 by decide⟩)
      (by decide)).2.2.2.1,
   (swap_hands_exchanges lead_state 2 (built_card 12)
      (fun _ _ => ⟨show (0 : Int) ≤ 5 by decide, show (5 : Int) ≤ 5 by decide⟩)
      (by decide)).2.2.2.2.1 0 (show ((0 : Nat) : Int) < 5 by decide),
   (swap_hands_exchanges lead_state 2 (built_card 12)
      (fun _ _ => ⟨show (0 : Int) ≤ 5 by decide, show (5 : Int) ≤ 5 by decide⟩)
      (by decide)).2.2.2.2.2 4 (show ((4 : Nat) : Int) < 5 by decide)⟩

/-! ## C13 and C14: the played card and the hand sizes -/

/-- C13, failing input: in `king_state` (hands pairwise distinct) the dealer,
seat 0, acts and plays the front card of its hand, the king of hearts.  The
special is activated before the removal loop runs, so the hands of seats 0
and 1 are exchanged first and the loop then removes the front card of the
hand received: when the dealer's turn is complete the king of hearts is the
front card of seat 1's hand of five, and the 9 of diamonds, which nobody
played, is in no hand. -/
theorem played_king_stays_in_a_hand :
    (all_cards (after_betting king_state 0).players).Nodup ∧
    turn_acts king_state 0 stale_played 0 ∧
    turn_card king_state 0 stale_played 0 = built_card 12 ∧
    (built_card 12).special = 2 ∧
    ((play_pass king_state 0 stale_played 1).g.players 1).hand_size = 5 ∧
    ((play_pass king_state 0 stale_played 1).g.players 1).hand 0 = built_card 12 ∧
    built_card 12 ∈ all_cards (play_pass king_state 0 stale_played 1).g.players ∧
    ((play_pass king_state 0 stale_played 1).g.players 0).hand_size = 4 ∧
    built_card 21 ∈ all_cards (after_betting king_state 0).players ∧
    built_card 21 ∉ all_cards (play_pass king_state 0 stale_played 1).g.players := by
  decide!

/-- C14, failing input: in `last_cards_state` every hand size is 1.  With
dealer 1 the seats 1, 2 and 3 play their last card, so seat 1 has an empty
hand when seat 0 starts its turn with one card, the king of hearts.  Seat 0
passes the test `hand_size > 0` and plays the king; the hands of seats 0 and 1
are exchanged, which leaves seat 0 with the empty hand, and the removal that
follows decrements its `hand_size` all the same: after `play_round` seat 0
has `hand_size = -1`. -/
theorem hand_size_goes_negative :
    (last_cards_state.players 0).hand_size = 1 ∧
    (last_cards_state.players 1).hand_size = 1 ∧
    (last_cards_state.players 2).hand_size = 1 ∧
    (last_cards_state.players 3).hand_size = 1 ∧
    ((play_pass last_cards_state 1 stale_played 3).g.players 0).hand_size = 1 ∧
    ((play_pass last_cards_state 1 stale_played 3).g.players 1).hand_size = 0 ∧
    turn_acts last_cards_state 1 stale_played 3 ∧
    turn_card last_cards_state 1 stale_played 3 = built_card 12 ∧
    ((play_pass last_cards_state 1 stale_played 4).g.players 0).hand_size = -1 ∧
    ((play_round last_cards_state 1 stale_played).2.players 0).hand_size = -1 := by
  decide!

/-! ## C15: the cards in the hands stay distinct -/

theorem hand_list_congr (a b : Player) (hs : a.hand_size = b.hand_size)
    (hh : ∀ i, i < b.hand_size.toNat → a.hand i = b.hand i) : hand_list a = hand_list b := by
  unfold hand_list
  rw [hs]
  apply List.map_congr_left
  intro i hi
  exact hh i (List.mem_range.mp hi)

theorem map_range_tail (f : Nat → Card) (n : Nat) :
    ((List.range n).map f).tail = (List.range (n - 1)).map (fun i => f (i + 1)) := by
  cases n with
  | zero => rfl
  | succ m =>
    rw [List.range_succ_eq_map, List.map_cons, List.tail_cons, List.map_map]
    rfl

theorem shift_loop (h : Nat → Card) (n i : Nat) :
    forLoop (fun j t => upd t j (t (j + 1))) n h i = if i < n then h (i + 1) else h i := by
  induction n generalizing i with
  | zero => simp
  | succ m ih =>
    rw [forLoop_succ, upd_apply]
    by_cases him : i = m
    · subst him
      rw [if_pos rfl, ih, if_neg (by omega), if_pos (by omega)]
    · rw [if_neg him, ih]
      by_cases hlt : i < m
      · rw [if_pos hlt, if_pos (by omega)]
      · rw [if_neg hlt, if_neg (by omega)]

theorem remove_front_cards (g : Game) (c : Nat) :
    hand_list ((remove_front g c).players c) = (hand_list (g.players c)).tail ∧
    ∀ r, r ≠ c → (remove_front g c).players r = g.players r := by
  refine ⟨?_, fun r hr => upd_other _ _ hr⟩
  unfold remove_front hand_list
  simp only [upd_same]
  rw [map_range_tail]
  have hn : ((g.players c).hand_size - 1).toNat = (g.players c).hand_size.toNat - 1 := by omega
  rw [hn]
  apply List.map_congr_left
  intro i hi
  rw [shift_loop, if_pos (List.mem_range.mp hi)]

theorem swap_hands_cards (ps : Nat → Player) (p : Nat) (temp0 : Nat → Card) :
    hand_list (swap_hands ps p temp0 p) = hand_list (ps (p + 1)) ∧
    hand_list (swap_hands ps p temp0 (p + 1)) = hand_list (ps p) ∧
    ∀ r, r ≠ p → r ≠ p + 1 → swap_hands ps p temp0 r = ps r := by
  obtain ⟨s1, s2, s3, s4, s5⟩ := swap_hands_hands ps p temp0
  refine ⟨hand_list_congr _ _ s2 (fun i hi => ?_), hand_list_congr _ _ s4 (fun i hi => ?_), s1⟩
  · rw [s3, if_pos hi]
  · rw [s5, if_pos hi]

theorem cards_tail (h0 h1 h2 h3 k0 k1 k2 k3 : List Card) (c : Nat)
    (e0 : k0 = if c = 0 then h0.tail else h0) (e1 : k1 = if c = 1 then h1.tail else h1)
    (e2 : k2 = if c = 2 then h2.tail else h2) (e3 : k3 = if c = 3 then h3.tail else h3) :
    List.Sublist (k0 ++ k1 ++ k2 ++ k3) (h0 ++ h1 ++ h2 ++ h3) := by
  subst e0 e1 e2 e3
  apply List.Sublist.append
  · apply List.Sublist.append
    · apply List.Sublist.append
      · split
        · exact List.tail_sublist _
        · exact List.Sublist.refl _
      · split
        · exact List.tail_sublist _
        · exact List.Sublist.refl _
    · split
      · exact List.tail_sublist _
      · exact List.Sublist.refl _
  · split
    · exact List.tail_sublist _
    · exact List.Sublist.refl _

theorem cards_swap (h0 h1 h2 h3 : List Card) :
    List.Perm (h1 ++ h0 ++ h2 ++ h3) (h0 ++ h1 ++ h2 ++ h3) ∧
    List.Perm (h0 ++ h2 ++ h1 ++ h3) (h0 ++ h1 ++ h2 ++ h3) ∧
    List.Perm (h0 ++ h1 ++ h3 ++ h2) (h0 ++ h1 ++ h2 ++ h3) := by
  refine ⟨?_, ?_, ?_⟩
  · exact (List.perm_append_comm.append_right h2).append_right h3
  · rw [List.append_assoc h0 h2 h1, List.append_assoc h0 h1 h2]
    exact (List.perm_append_comm.append_left h0).append_right h3
  · rw [List.append_assoc (h0 ++ h1) h3 h2, List.append_assoc (h0 ++ h1) h2 h3]
    exact List.perm_append_comm.append_left (h0 ++ h1)

theorem remove_front_slot (g : Game) (c k : Nat) :
    hand_list ((remove_front g c).players k) =
      if c = k then (hand_list (g.players k)).tail else hand_list (g.players k) := by
  by_cases hck : c = k
  · subst hck
    rw [if_pos rfl]
    exact (remove_front_cards g c).1
  · rw [if_neg hck, (remove_front_cards g c).2 k (fun e => hck e.symm)]

theorem remove_front_sublist (g : Game) (c : Nat) :
    List.Sublist (all_cards (remove_front g c).players) (all_cards g.players) := by
  unfold all_cards
  exact cards_tail _ _ _ _ _ _ _ _ c (remove_front_slot g c 0) (remove_front_slot g c 1)
    (remove_front_slot g c 2) (remove_front_slot g c 3)

theorem swap_hands_perm (ps : Nat → Player) (p : Nat) (hp : p < 3) (temp0 : Nat → Card) :
    List.Perm (all_cards (swap_hands ps p temp0)) (all_cards ps) := by
  obtain ⟨s1, s2, s3⟩ := swap_hands_cards ps p temp0
  unfold all_cards
  interval_cases p
  · rw [s1, s2, s3 2 (by decide) (by decide), s3 3 (by decide) (by decide)]
    exact (cards_swap _ _ _ _).1
  · rw [s1, s2, s3 0 (by decide) (by decide), s3 3 (by decide) (by decide)]
    exact (cards_swap _ _ _ _).2.1
  · rw [s1, s2, s3 0 (by decide) (by decide), s3 1 (by decide) (by decide)]
    exact (cards_swap _ _ _ _).2.2

theorem activate_special_perm (g : Game) (p : Nat) (card : Card) :
    List.Perm (all_cards (activate_special g p card).players) (all_cards g.players) := by
  unfold activate_special
  rw [get_trump_suit_state, simple_rand_state]
  split_ifs with h1 h2 h3 h4
  · exact List.Perm.refl _
  · exact swap_hands_perm g.players p h3 _
  · exact List.Perm.refl _
  · exact List.Perm.refl _
  · exact List.Perm.refl _

theorem acted_game_subperm (g : Game) (c : Nat) :
    List.Subperm (all_cards (acted_game g c).players) (all_cards g.players) := by
  unfold acted_game
  refine List.Subperm.trans (remove_front_sublist _ c).subperm ?_
  split
  · exact (activate_special_perm g c _).subperm
  · exact List.Subperm.refl _

theorem play_turn_subperm (dealer : Nat) (t : Int) (i : Nat) (s : RoundState) :
    List.Subperm (all_cards (play_turn dealer t i s).g.players) (all_cards s.g.players) := by
  by_cases ha : acts s.g ((dealer + i) % 4)
  · rw [play_turn_act dealer t i s ha]
    exact acted_game_subperm s.g _
  · rw [play_turn_idle dealer t i s ha]

theorem play_pass_subperm (g : Game) (dealer : Nat) (played0 : Nat → Card) (n : Nat) :
    List.Subperm (all_cards (play_pass g dealer played0 n).g.players)
      (all_cards (after_betting g dealer).players) := by
  induction n with
  | zero =>
    rw [play_pass_zero]
  | succ m ih =>
    rw [play_pass_succ]
    exact List.Subperm.trans (play_turn_subperm _ _ _ _) ih

theorem bet_turn_hands (dealer i : Nat) (g : Game) (p : Nat) :
    ((bet_turn dealer i g).players p).hand = (g.players p).hand ∧
    ((bet_turn dealer i g).players p).hand_size = (g.players p).hand_size := by
  by_cases hp : p = (dealer + i) % 4
  · rcases bet_turn_cases dealer i g with h | ⟨hf, h⟩ | ⟨hf, hc, h⟩ | ⟨hf, hc, h⟩
    · rw [bet_turn_skip dealer i g h]
      exact ⟨rfl, rfl⟩
    · rw [bet_turn_fold dealer i g hf h, hp]
      simp only [upd_same, and_self]
    · rw [bet_turn_call dealer i g hf hc h, hp]
      simp only [upd_same, and_self]
    · rw [bet_turn_raise dealer i g hf hc h, hp]
      simp only [upd_same, and_self]
  · rw [bet_turn_frame dealer i g p hp]
    exact ⟨rfl, rfl⟩

theorem betting_pass_hands (g : Game) (dealer n p : Nat) :
    ((betting_pass g dealer n).players p).hand = (g.players p).hand ∧
    ((betting_pass g dealer n).players p).hand_size = (g.players p).hand_size := by
  induction n with
  | zero =>
    rw [betting_pass_zero]
    exact ⟨rfl, rfl⟩
  | succ m ih =>
    rw [betting_pass_succ]
    exact ⟨(bet_turn_hands dealer m _ p).1.trans ih.1, (bet_turn_hands dealer m _ p).2.trans ih.2⟩

theorem all_cards_congr (ps qs : Nat → Player)
    (h : ∀ p, (qs p).hand = (ps p).hand ∧ (qs p).hand_size = (ps p).hand_size) :
    all_cards qs = all_cards ps := by
  unfold all_cards hand_list
  rw [(h 0).1, (h 0).2, (h 1).1, (h 1).2, (h 2).1, (h 2).2, (h 3).1, (h 3).2]

theorem after_betting_cards (g : Game) (dealer : Nat) :
    all_cards (after_betting g dealer).players = all_cards g.players := by
  apply all_cards_congr
  intro p
  rw [after_betting, ← betting_pass_four]
  exact betting_pass_hands (get_trump_suit g).2 dealer 4 p

theorem reset_loop_hands (n : Nat) (ps : Nat → Player) (p : Nat) :
    (forLoop (fun i q => upd q i { q i with folded := 0 }) n ps p).hand = (ps p).hand ∧
    (forLoop (fun i q => upd q i { q i with folded := 0 }) n ps p).hand_size =
      (ps p).hand_size := by
  induction n with
  | zero => exact ⟨rfl, rfl⟩
  | succ m ih =>
    rw [forLoop_succ, upd_apply]
    by_cases h : p = m
    · subst h
      simpa using ih
    · simpa [h] using ih

theorem resolve_cards (s : RoundState) :
    all_cards (resolve s).players = all_cards s.g.players := by
  apply all_cards_congr
  intro p
  unfold resolve
  simp only []
  obtain ⟨r1, r2⟩ := reset_loop_hands 4
    (upd s.g.players s.winning_player
      { s.g.players s.winning_player with
          chips := (s.g.players s.winning_player).chips + s.g.pot }) p
  rw [r1, r2, upd_apply]
  by_cases h : p = s.winning_player
  · rw [if_pos h, h]
    exact ⟨rfl, rfl⟩
  · rw [if_neg h]
    exact ⟨rfl, rfl⟩

theorem play_round_subperm (g : Game) (dealer : Nat) (played0 : Nat → Card) :
    List.Subperm (all_cards (play_round g dealer played0).2.players) (all_cards g.players) := by
  show List.Subperm (all_cards (resolve (play_phase g dealer played0)).players) _
  rw [resolve_cards, play_phase, ← after_betting_cards g dealer]
  exact play_pass_subperm g dealer played0 4

/-- C15: for every state in which all hand sizes are between 0 and 5 and the
cards held in the four hands are pairwise distinct (the list of the cards of
the four hands has no duplicate, so no card is in two hands or twice in one
hand), after `play_round` the cards held in the four hands are still pairwise
distinct and every one of them was held in some hand before the round. -/
theorem play_round_keeps_cards_distinct (g : Game) (dealer : Nat) (played0 : Nat → Card)
    (_hsize : ∀ p, p < 4 → 0 ≤ (g.players p).hand_size ∧ (g.players p).hand_size ≤ 5)
    (hdistinct : (all_cards g.players).Nodup) :
    (all_cards (play_round g dealer played0).2.players).Nodup ∧
    ∀ c, c ∈ all_cards (play_round g dealer played0).2.players → c ∈ all_cards g.players := by
  obtain ⟨l, hperm, hsub⟩ := play_round_subperm g dealer played0
  refine ⟨hperm.nodup_iff.mp (hsub.nodup hdistinct), fun c hc => ?_⟩
  exact hsub.subset (hperm.symm.subset hc)

theorem play_round_keeps_cards_distinct_witness :
    (all_cards (play_round king_state 0 stale_played).2.players).Nodup :=
  (play_round_keeps_cards_distinct king_state 0 stale_played
    (fun _ _ => ⟨show (0 : Int) ≤ 5 by decide, show (5 : Int) ≤ 5 by decide⟩)
    (by decide!)).1

/-! ## Where the played card does leave the hands -/

theorem hand_list_front (pl : Player) (h : 0 < pl.hand_size) :
    hand_list pl = pl.hand 0 :: (hand_list pl).tail := by
  unfold hand_list
  obtain ⟨m, hm⟩ : ∃ m, pl.hand_size.toNat = m + 1 := ⟨pl.hand_size.toNat - 1, by omega⟩
  rw [hm, List.range_succ_eq_map, List.map_cons, List.tail_cons]

theorem cards_without_front (x : Card) (h0 h1 h2 h3 k0 k1 k2 k3 : List Card) (c : Nat)
    (hc : c < 4)
    (f0 : c = 0 → h0 = x :: h0.tail) (f1 : c = 1 → h1 = x :: h1.tail)
    (f2 : c = 2 → h2 = x :: h2.tail) (f3 : c = 3 → h3 = x :: h3.tail)
    (e0 : k0 = if c = 0 then h0.tail else h0) (e1 : k1 = if c = 1 then h1.tail else h1)
    (e2 : k2 = if c = 2 then h2.tail else h2) (e3 : k3 = if c = 3 then h3.tail else h3)
    (hnd : (h0 ++ h1 ++ h2 ++ h3).Nodup) : x ∉ k0 ++ k1 ++ k2 ++ k3 := by
  subst e0 e1 e2 e3
  interval_cases c
  · obtain ⟨t, ht⟩ : ∃ t, h0 = x :: t := ⟨_, f0 rfl⟩
    subst ht
    have hm := List.nodup_middle.mp
      (show (([] : List Card) ++ x :: (t ++ (h1 ++ (h2 ++ h3)))).Nodup by
        simpa [List.append_assoc] using hnd)
    simpa [List.append_assoc] using (List.nodup_cons.mp hm).1
  · obtain ⟨t, ht⟩ : ∃ t, h1 = x :: t := ⟨_, f1 rfl⟩
    subst ht
    have hm := List.nodup_middle.mp
      (show (h0 ++ x :: (t ++ (h2 ++ h3))).Nodup by simpa [List.append_assoc] using hnd)
    simpa [List.append_assoc] using (List.nodup_cons.mp hm).1
  · obtain ⟨t, ht⟩ : ∃ t, h2 = x :: t := ⟨_, f2 rfl⟩
    subst ht
    have hm := List.nodup_middle.mp
      (show ((h0 ++ h1) ++ x :: (t ++ h3)).Nodup by simpa [List.append_assoc] using hnd)
    simpa [List.append_assoc] using (List.nodup_cons.mp hm).1
  · obtain ⟨t, ht⟩ : ∃ t, h3 = x :: t := ⟨_, f3 rfl⟩
    subst ht
    have hm := List.nodup_middle.mp
      (show ((h0 ++ h1 ++ h2) ++ x :: t).Nodup by simpa [List.append_assoc] using hnd)
    simpa [List.append_assoc] using (List.nodup_cons.mp hm).1

theorem activate_special_no_swap (g : Game) (c : Nat) (card : Card)
    (h : card.special ≠ 2 ∨ ¬ c < 3) : (activate_special g c card).players = g.players := by
  unfold activate_special
  rw [get_trump_suit_state, simple_rand_state]
  split_ifs with h1 h2 h3 h4
  · rfl
  · rcases h with h | h
    · exact absurd h2 h
    · exact absurd h3 h
  · rfl
  · rfl
  · rfl

/-- The turn of an acting seat whose front card does not exchange hands (its
special is not 2, or the seat is seat 3) removes that card: with pairwise
distinct cards in the hands, the played card is in no hand afterwards. -/
theorem played_card_leaves_hands (g : Game) (c : Nat) (hc : c < 4) (hact : acts g c)
    (hnoswap : ((g.players c).hand 0).special ≠ 2 ∨ ¬ c < 3)
    (hnd : (all_cards g.players).Nodup) :
    (g.players c).hand 0 ∉ all_cards (acted_game g c).players := by
  have hplayers : ∀ k, hand_list ((acted_game g c).players k) =
      if c = k then (hand_list (g.players k)).tail else hand_list (g.players k) := by
    intro k
    have hg1 : (if ((g.players c).hand 0).special > 0
        then activate_special g c ((g.players c).hand 0) else g).players = g.players := by
      split
      · exact activate_special_no_swap g c _ hnoswap
      · rfl
    unfold acted_game
    rw [remove_front_slot, hg1]
  have hfront : ∀ k, c = k →
      hand_list (g.players k) = (g.players c).hand 0 :: (hand_list (g.players k)).tail := by
    intro k hk
    subst hk
    exact hand_list_front _ hact.2
  unfold all_cards at hnd ⊢
  exact cards_without_front _ _ _ _ _ _ _ _ _ c hc (hfront 0) (hfront 1) (hfront 2) (hfront 3)
    (hplayers 0) (hplayers 1) (hplayers 2) (hplayers 3) hnd

/-- The card recorded for an acting seat is the front card of its hand at the
start of its turn; a seat that does not act leaves the whole state as it is. -/
theorem played_card_is_front (dealer : Nat) (t : Int) (i : Nat) (s : RoundState) :
    (acts s.g ((dealer + i) % 4) →
      (play_turn dealer t i s).played ((dealer + i) % 4) =
        (s.g.players ((dealer + i) % 4)).hand 0) ∧
    (¬ acts s.g ((dealer + i) % 4) → play_turn dealer t i s = s) := by
  refine ⟨fun ha => ?_, fun ha => play_turn_idle dealer t i s ha⟩
  rw [play_turn_act dealer t i s ha]
  exact upd_same _ _ _

end CardGame
